import Mathlib

/-! # GGML / GGUF container decoding (`llm/ggml.go`)

A shallow embedding of the decoder of `llm/ggml.go` and theorems about it.

Modelling conventions.

* An `io.Reader` is the list of bytes it has not delivered yet (an in-memory or file reader:
  a short read delivers what is left and then reports end of file).  Every function that reads
  returns the reader it leaves behind, so "what was consumed" is observable.
* Go's fixed-width integers are `Nat`/`Int` values; arithmetic that can wrap is reduced
  `% 2 ^ 64` explicitly.  `int` is 64 bits wide.
* `float32`/`float64` values are carried as their IEEE-754 bit patterns
  (`math.Float32frombits` is a bit cast).
* A Go `string` is a list of bytes.
* A call returns `Outcome.ok`, `Outcome.err` (a returned `error`) or `Outcome.panic`
  (a runtime panic, which unwinds through every caller in this file).
-/

namespace Llm

/-! ## Bytes, byte order, readers -/

abbrev Byte := Fin 256

/-- The unread part of an `io.Reader`. -/
abbrev Stream := List Byte

/-- Values of `binary.ByteOrder` used by the decoder. -/
inductive ByteOrder
  | LittleEndian
  | BigEndian
deriving DecidableEq, Repr

/-- Little-endian value of a byte string. -/
def leUint : List Byte → Nat
  | [] => 0
  | b :: bs => b.val + 256 * leUint bs

/-- The unsigned integer denoted by a byte string under byte order `bo`
(`order.Uint16`, `order.Uint32`, `order.Uint64`). -/
def ByteOrder.Uint (bo : ByteOrder) (bs : List Byte) : Nat :=
  match bo with
  | .LittleEndian => leUint bs
  | .BigEndian => leUint bs.reverse

/-- Errors returned by the functions of the file. -/
inductive GoError
  | EOF
  | ErrUnexpectedEOF
  | ErrUnsupportedFormat
  | invalidFileMagic
  | invalidVersion
  | invalidType (vtype : Nat)
  | invalidArrayType (atype : Nat)
deriving DecidableEq, Repr

/-- The message of an error (`err.Error()`); `%d` prints decimal. -/
def GoError.Error : GoError → String
  | .EOF => "EOF"
  | .ErrUnexpectedEOF => "unexpected EOF"
  | .ErrUnsupportedFormat => "unsupported model format"
  | .invalidFileMagic => "invalid file magic"
  | .invalidVersion => "invalid version"
  | .invalidType vtype => "invalid type: " ++ toString vtype
  | .invalidArrayType atype => "invalid array type: " ++ toString atype

/-- How a call ends: a value, a returned error, or a runtime panic. -/
inductive Outcome (α : Type)
  | ok (a : α)
  | err (e : GoError)
  | panic
deriving DecidableEq, Repr

/-- The Go idiom `x, err := f(r); if err != nil { return err }` followed by the rest of the
function: continue with the value and the reader left behind, or stop. -/
def Outcome.andThen {α β : Type} (x : Outcome α × Stream)
    (f : α → Stream → Outcome β × Stream) : Outcome β × Stream :=
  match x with
  | (.ok a, r) => f a r
  | (.err e, r) => (.err e, r)
  | (.panic, r) => (.panic, r)

/-- The function `io.ReadFull(r, buf)` with `len(buf) = n`: all `n` bytes, or an error after
draining the reader. -/
def ReadFull (n : Nat) (r : Stream) : Except GoError (List Byte) × Stream :=
  if n ≤ r.length then (.ok (r.take n), r.drop n)
  else if r.length = 0 then (.error .EOF, [])
  else (.error .ErrUnexpectedEOF, [])

/-- The function `binary.Read(r, order, &x)` for an unsigned integer `x` of `w` bytes: `some v`
when `x` was set to `v`, `none` when an error was returned and `x` was left untouched. -/
def binaryRead (bo : ByteOrder) (w : Nat) (r : Stream) : Option Nat × Stream :=
  match ReadFull w r with
  | (.ok bs, r1) => (some (bo.Uint bs), r1)
  | (.error _, r1) => (none, r1)

/-- Conversion of an unsigned `w`-bit pattern to the signed type of the same width. -/
def toSigned (w : Nat) (x : Nat) : Int :=
  if x < 2 ^ (w - 1) then (x : Int) else (x : Int) - 2 ^ w

/-- The function `io.CopyN(&b, r, n)` into a fresh `bytes.Buffer`: the buffer contents on
success.  A negative `n` copies nothing and reports no error; a short reader is drained and
reports `io.EOF`. -/
def CopyN (r : Stream) (n : Int) : Except GoError (List Byte) × Stream :=
  if n < 0 then (.ok [], r)
  else if n.toNat ≤ r.length then (.ok (r.take n.toNat), r.drop n.toNat)
  else (.error .EOF, [])

/-- The bytes of a Go string literal made of ASCII characters. -/
def asciiBytes (s : String) : List Byte :=
  s.toList.map (fun c => Fin.ofNat c.toNat)

/-! ## Constants -/

def FILE_MAGIC_GGML : Nat := 0x67676d6c
def FILE_MAGIC_GGMF : Nat := 0x67676d66
def FILE_MAGIC_GGJT : Nat := 0x67676a74
def FILE_MAGIC_GGLA : Nat := 0x67676C61
def FILE_MAGIC_GGUF_LE : Nat := 0x46554747
def FILE_MAGIC_GGUF_BE : Nat := 0x47475546

def ggufTypeUint8 : Nat := 0
def ggufTypeInt8 : Nat := 1
def ggufTypeUint16 : Nat := 2
def ggufTypeInt16 : Nat := 3
def ggufTypeUint32 : Nat := 4
def ggufTypeInt32 : Nat := 5
def ggufTypeFloat32 : Nat := 6
def ggufTypeBool : Nat := 7
def ggufTypeString : Nat := 8
def ggufTypeArray : Nat := 9
def ggufTypeUint64 : Nat := 10
def ggufTypeInt64 : Nat := 11
def ggufTypeFloat64 : Nat := 12

/-! ## Data model -/

/-- The dynamic types of the elements the decoder appends to an array (`[]any`) and of the
non-array values it stores in the dictionary. -/
inductive Scalar
  | uint8 (x : Nat)
  | int8 (x : Int)
  | uint16 (x : Nat)
  | int16 (x : Int)
  | uint32 (x : Nat)
  | int32 (x : Int)
  | uint64 (x : Nat)
  | int64 (x : Int)
  | float32 (bits : Nat)
  | float64 (bits : Nat)
  | bool (b : Bool)
  | string (s : List Byte)
deriving DecidableEq, Repr

/-- The values (`any`) stored in the dictionary: a scalar or a `[]any` of scalars. -/
inductive Value
  | scalar (x : Scalar)
  | array (xs : List Scalar)
deriving DecidableEq, Repr

/-- The type `kv` (`map[string]any`): at most one binding per key. -/
abbrev kv := List (List Byte × Value)

/-- The lookup `m[k]`. -/
def kv.get (m : kv) (k : List Byte) : Option Value :=
  match m with
  | [] => none
  | (k1, v) :: m1 => if k1 = k then some v else kv.get m1 k

/-- The map without its binding for `k`. -/
def kv.del (m : kv) (k : List Byte) : kv :=
  match m with
  | [] => []
  | (k1, v) :: m1 => if k1 = k then kv.del m1 k else (k1, v) :: kv.del m1 k

/-- The assignment `m[k] = v`: the binding of `k` is replaced. -/
def kv.set (m : kv) (k : List Byte) (v : Value) : kv :=
  (k, v) :: m.del k

/-- The count pair `V1` / `V2` of `containerGGUF`. -/
structure Counts where
  NumTensor : Nat
  NumKV : Nat
deriving DecidableEq, Repr

structure containerGGUF where
  bo : ByteOrder
  Version : Nat
  V1 : Counts
  V2 : Counts
  parameters : Nat
deriving DecidableEq, Repr

/-- The struct `ggufModel`; the embedded `*containerGGUF` is the parent structure (the model
and `GGML.container` point to one container). -/
structure ggufModel extends containerGGUF where
  kv : kv
deriving DecidableEq, Repr

structure containerLORA where
  version : Nat
deriving DecidableEq, Repr

/-- The implementations of the interface `container`. -/
inductive container
  | LORA (c : containerLORA)
  | GGUF (c : containerGGUF)
deriving DecidableEq, Repr

/-- The struct `GGML`; a nil `model` is `none`. -/
structure GGML where
  magic : Nat
  container : container
  model : Option ggufModel
deriving DecidableEq, Repr

def container.Name : container → String
  | .LORA _ => "ggla"
  | .GGUF _ => "gguf"

def newGGUFModel (c : containerGGUF) : ggufModel :=
  { tocontainerGGUF := c, kv := [] }

def ggufModel.NumTensor (llm : ggufModel) : Nat :=
  if llm.Version = 1 then llm.V1.NumTensor else llm.V2.NumTensor

def ggufModel.NumKV (llm : ggufModel) : Nat :=
  if llm.Version = 1 then llm.V1.NumKV else llm.V2.NumKV

/-! ## Primitive field readers -/

/-- The shared body of `readU8` ... `readBool`: `var x T; binary.Read(r, llm.bo, &x); return x`
for a `w`-byte `T`, as the unsigned bit pattern of `x` (zero when the read failed: the error of
`binary.Read` is dropped). -/
def ggufModel.readBits (llm : ggufModel) (w : Nat) (r : Stream) : Nat × Stream :=
  ((binaryRead llm.bo w r).1.getD 0, (binaryRead llm.bo w r).2)

def ggufModel.readU8 (llm : ggufModel) (r : Stream) : Nat × Stream :=
  llm.readBits 1 r

def ggufModel.readI8 (llm : ggufModel) (r : Stream) : Int × Stream :=
  (toSigned 8 (llm.readBits 1 r).1, (llm.readBits 1 r).2)

def ggufModel.readU16 (llm : ggufModel) (r : Stream) : Nat × Stream :=
  llm.readBits 2 r

def ggufModel.readI16 (llm : ggufModel) (r : Stream) : Int × Stream :=
  (toSigned 16 (llm.readBits 2 r).1, (llm.readBits 2 r).2)

def ggufModel.readU32 (llm : ggufModel) (r : Stream) : Nat × Stream :=
  llm.readBits 4 r

def ggufModel.readI32 (llm : ggufModel) (r : Stream) : Int × Stream :=
  (toSigned 32 (llm.readBits 4 r).1, (llm.readBits 4 r).2)

def ggufModel.readU64 (llm : ggufModel) (r : Stream) : Nat × Stream :=
  llm.readBits 8 r

def ggufModel.readI64 (llm : ggufModel) (r : Stream) : Int × Stream :=
  (toSigned 64 (llm.readBits 8 r).1, (llm.readBits 8 r).2)

/-- The float is returned as its bit pattern. -/
def ggufModel.readF32 (llm : ggufModel) (r : Stream) : Nat × Stream :=
  llm.readBits 4 r

/-- The float is returned as its bit pattern. -/
def ggufModel.readF64 (llm : ggufModel) (r : Stream) : Nat × Stream :=
  llm.readBits 8 r

/-- A byte decodes to `true` exactly when it is not zero. -/
def ggufModel.readBool (llm : ggufModel) (r : Stream) : Bool × Stream :=
  (decide ((llm.readBits 1 r).1 ≠ 0), (llm.readBits 1 r).2)

/-- The method `readStringV1`: `b.Truncate(b.Len() - 1)` panics when the buffer is empty. -/
def ggufModel.readStringV1 (llm : ggufModel) (r : Stream) : Outcome (List Byte) × Stream :=
  let nameLength := (llm.readBits 4 r).1
  match CopyN (llm.readBits 4 r).2 (nameLength : Int) with
  | (.error e, r1) => (.err e, r1)
  | (.ok b, r1) =>
    if (b.length : Int) - 1 < 0 then (.panic, r1)
    else (.ok (b.take (b.length - 1)), r1)

/-- The method `readString`; `int64(nameLength)` reinterprets the 64-bit prefix as signed. -/
def ggufModel.readString (llm : ggufModel) (r : Stream) : Outcome (List Byte) × Stream :=
  if llm.Version = 1 then llm.readStringV1 r
  else
    let nameLength := (llm.readBits 8 r).1
    match CopyN (llm.readBits 8 r).2 (toSigned 64 nameLength) with
    | (.error e, r1) => (.err e, r1)
    | (.ok b, r1) => (.ok b, r1)

/-! ## Arrays -/

/-- One pass through the `switch atype` of `readArrayV1`: the element to append. -/
def ggufModel.readElemV1 (llm : ggufModel) (atype : Nat) (r : Stream) :
    Outcome Scalar × Stream :=
  if atype = ggufTypeUint8 then (.ok (.uint8 (llm.readU8 r).1), (llm.readU8 r).2)
  else if atype = ggufTypeInt8 then (.ok (.int8 (llm.readI8 r).1), (llm.readI8 r).2)
  else if atype = ggufTypeUint16 then (.ok (.uint16 (llm.readU16 r).1), (llm.readU16 r).2)
  else if atype = ggufTypeInt16 then (.ok (.int16 (llm.readI16 r).1), (llm.readI16 r).2)
  else if atype = ggufTypeUint32 then (.ok (.uint32 (llm.readU32 r).1), (llm.readU32 r).2)
  else if atype = ggufTypeInt32 then (.ok (.int32 (llm.readI32 r).1), (llm.readI32 r).2)
  else if atype = ggufTypeFloat32 then (.ok (.float32 (llm.readF32 r).1), (llm.readF32 r).2)
  else if atype = ggufTypeBool then (.ok (.bool (llm.readBool r).1), (llm.readBool r).2)
  else if atype = ggufTypeString then
    Outcome.andThen (llm.readStringV1 r) fun s r1 => (.ok (.string s), r1)
  else (.err (.invalidArrayType atype), r)

/-- The loop of `readArrayV1` with `n` iterations left and `arr` accumulated so far. -/
def ggufModel.readArrayV1Loop (llm : ggufModel) (atype : Nat) :
    Nat → List Scalar → Stream → Outcome (List Scalar) × Stream
  | 0, arr, r => (.ok arr, r)
  | n + 1, arr, r =>
    Outcome.andThen (llm.readElemV1 atype r) fun x r1 =>
      ggufModel.readArrayV1Loop llm atype n (arr ++ [x]) r1

def ggufModel.readArrayV1 (llm : ggufModel) (r : Stream) : Outcome (List Scalar) × Stream :=
  let atype := (llm.readU32 r).1
  let n := (llm.readU32 (llm.readU32 r).2).1
  llm.readArrayV1Loop atype n [] (llm.readU32 (llm.readU32 r).2).2

/-- One pass through the `switch atype` of `readArray`: the element to append. -/
def ggufModel.readElem (llm : ggufModel) (atype : Nat) (r : Stream) :
    Outcome Scalar × Stream :=
  if atype = ggufTypeUint8 then (.ok (.uint8 (llm.readU8 r).1), (llm.readU8 r).2)
  else if atype = ggufTypeInt8 then (.ok (.int8 (llm.readI8 r).1), (llm.readI8 r).2)
  else if atype = ggufTypeUint16 then (.ok (.uint16 (llm.readU16 r).1), (llm.readU16 r).2)
  else if atype = ggufTypeInt16 then (.ok (.int16 (llm.readI16 r).1), (llm.readI16 r).2)
  else if atype = ggufTypeUint32 then (.ok (.uint32 (llm.readU32 r).1), (llm.readU32 r).2)
  else if atype = ggufTypeInt32 then (.ok (.int32 (llm.readI32 r).1), (llm.readI32 r).2)
  else if atype = ggufTypeUint64 then (.ok (.uint64 (llm.readU64 r).1), (llm.readU64 r).2)
  else if atype = ggufTypeInt64 then (.ok (.int64 (llm.readI64 r).1), (llm.readI64 r).2)
  else if atype = ggufTypeFloat32 then (.ok (.float32 (llm.readF32 r).1), (llm.readF32 r).2)
  else if atype = ggufTypeFloat64 then (.ok (.float64 (llm.readF64 r).1), (llm.readF64 r).2)
  else if atype = ggufTypeBool then (.ok (.bool (llm.readBool r).1), (llm.readBool r).2)
  else if atype = ggufTypeString then
    Outcome.andThen (llm.readString r) fun s r1 => (.ok (.string s), r1)
  else (.err (.invalidArrayType atype), r)

/-- The loop of `readArray` with `n` iterations left and `arr` accumulated so far. -/
def ggufModel.readArrayLoop (llm : ggufModel) (atype : Nat) :
    Nat → List Scalar → Stream → Outcome (List Scalar) × Stream
  | 0, arr, r => (.ok arr, r)
  | n + 1, arr, r =>
    Outcome.andThen (llm.readElem atype r) fun x r1 =>
      ggufModel.readArrayLoop llm atype n (arr ++ [x]) r1

def ggufModel.readArray (llm : ggufModel) (r : Stream) : Outcome (List Scalar) × Stream :=
  if llm.Version = 1 then llm.readArrayV1 r
  else
    let atype := (llm.readU32 r).1
    let n := (llm.readU64 (llm.readU32 r).2).1
    llm.readArrayLoop atype n [] (llm.readU64 (llm.readU32 r).2).2

/-! ## The GGUF decoder -/

/-- The `switch vtype` of `ggufModel.Decode`: the value `v` of one key-value entry. -/
def ggufModel.readValue (llm : ggufModel) (vtype : Nat) (r : Stream) : Outcome Value × Stream :=
  if vtype = ggufTypeUint8 then (.ok (.scalar (.uint8 (llm.readU8 r).1)), (llm.readU8 r).2)
  else if vtype = ggufTypeInt8 then (.ok (.scalar (.int8 (llm.readI8 r).1)), (llm.readI8 r).2)
  else if vtype = ggufTypeUint16 then
    (.ok (.scalar (.uint16 (llm.readU16 r).1)), (llm.readU16 r).2)
  else if vtype = ggufTypeInt16 then
    (.ok (.scalar (.int16 (llm.readI16 r).1)), (llm.readI16 r).2)
  else if vtype = ggufTypeUint32 then
    (.ok (.scalar (.uint32 (llm.readU32 r).1)), (llm.readU32 r).2)
  else if vtype = ggufTypeInt32 then
    (.ok (.scalar (.int32 (llm.readI32 r).1)), (llm.readI32 r).2)
  else if vtype = ggufTypeUint64 then
    (.ok (.scalar (.uint64 (llm.readU64 r).1)), (llm.readU64 r).2)
  else if vtype = ggufTypeInt64 then
    (.ok (.scalar (.int64 (llm.readI64 r).1)), (llm.readI64 r).2)
  else if vtype = ggufTypeFloat32 then
    (.ok (.scalar (.float32 (llm.readF32 r).1)), (llm.readF32 r).2)
  else if vtype = ggufTypeFloat64 then
    (.ok (.scalar (.float64 (llm.readF64 r).1)), (llm.readF64 r).2)
  else if vtype = ggufTypeBool then
    (.ok (.scalar (.bool (llm.readBool r).1)), (llm.readBool r).2)
  else if vtype = ggufTypeString then
    Outcome.andThen (llm.readString r) fun s r1 => (.ok (.scalar (.string s)), r1)
  else if vtype = ggufTypeArray then
    Outcome.andThen (llm.readArray r) fun a r1 => (.ok (.array a), r1)
  else (.err (.invalidType vtype), r)

/-- The key-value loop of `ggufModel.Decode` with `n` iterations left. -/
def ggufModel.decodeKVs : Nat → ggufModel → Stream → Outcome ggufModel × Stream
  | 0, llm, r => (.ok llm, r)
  | n + 1, llm, r =>
    Outcome.andThen (llm.readString r) fun k r1 =>
      Outcome.andThen (llm.readValue (llm.readU32 r1).1 (llm.readU32 r1).2) fun v r2 =>
        ggufModel.decodeKVs n { llm with kv := llm.kv.set k v } r2

/-- The inner loop of the tensor phase: `elements *= llm.readU64(r)`, `n` iterations left. -/
def ggufModel.readExtents (llm : ggufModel) : Nat → Nat → Stream → Nat × Stream
  | 0, elements, r => (elements, r)
  | n + 1, elements, r =>
    ggufModel.readExtents llm n (elements * (llm.readU64 r).1 % 2 ^ 64) (llm.readU64 r).2

/-- The tensor loop of `ggufModel.Decode` with `n` iterations left. -/
def ggufModel.decodeTensors : Nat → ggufModel → Stream → Outcome ggufModel × Stream
  | 0, llm, r => (.ok llm, r)
  | n + 1, llm, r =>
    Outcome.andThen (llm.readString r) fun _ r1 =>
      let dimensions := (llm.readU32 r1).1
      let elements := (llm.readExtents dimensions 1 (llm.readU32 r1).2).1
      let r2 := (llm.readExtents dimensions 1 (llm.readU32 r1).2).2
      let r3 := (llm.readU32 r2).2
      let r4 := (llm.readU64 r3).2
      ggufModel.decodeTensors n
        { llm with parameters := (llm.parameters + elements) % 2 ^ 64 } r4

/-- The method `ggufModel.Decode`: on `nil` the model as the call left it. -/
def ggufModel.Decode (llm : ggufModel) (r : Stream) : Outcome ggufModel × Stream :=
  Outcome.andThen (ggufModel.decodeKVs llm.NumKV llm r) fun llm1 r1 =>
    ggufModel.decodeTensors llm1.NumTensor llm1 r1

/-- The header part of `containerGGUF.Decode`: the version and the count pair selected by it.
A failed `binary.Read` leaves its target as it was. -/
def containerGGUF.readHeader (c : containerGGUF) (r : Stream) : containerGGUF × Stream :=
  let c1 : containerGGUF := { c with Version := (binaryRead c.bo 4 r).1.getD c.Version }
  let r1 := (binaryRead c.bo 4 r).2
  if c1.Version = 1 then
    match ReadFull 8 r1 with
    | (.ok bs, r2) =>
      ({ c1 with V1 := { NumTensor := c.bo.Uint (bs.take 4),
                         NumKV := c.bo.Uint (bs.drop 4) } }, r2)
    | (.error _, r2) => (c1, r2)
  else
    match ReadFull 16 r1 with
    | (.ok bs, r2) =>
      ({ c1 with V2 := { NumTensor := c.bo.Uint (bs.take 8),
                         NumKV := c.bo.Uint (bs.drop 8) } }, r2)
    | (.error _, r2) => (c1, r2)

def containerGGUF.Decode (c : containerGGUF) (r : Stream) : Outcome ggufModel × Stream :=
  (newGGUFModel (c.readHeader r).1).Decode (c.readHeader r).2

/-! ## The LoRA decoder and the dispatcher -/

/-- The method `containerLORA.Decode`: the model it returns is always nil, so success carries
the container only. -/
def containerLORA.Decode (c : containerLORA) (r : Stream) : Outcome containerLORA × Stream :=
  let version := (binaryRead .LittleEndian 4 r).1.getD 0
  let r1 := (binaryRead .LittleEndian 4 r).2
  if version = 1 then (.ok { c with version := version }, r1)
  else (.err .invalidVersion, r1)

def ErrUnsupportedFormat : GoError := .ErrUnsupportedFormat

/-- The composite literal `&containerGGUF{bo: bo}`: every other field is zero. -/
def emptyGGUF (bo : ByteOrder) : containerGGUF :=
  { bo := bo, Version := 0, V1 := ⟨0, 0⟩, V2 := ⟨0, 0⟩, parameters := 0 }

/-- The function `DecodeGGML`; `Outcome.err e` stands for the pair `(nil, e)`. -/
def DecodeGGML (r : Stream) : Outcome GGML × Stream :=
  let magic := (binaryRead .LittleEndian 4 r).1.getD 0
  let r1 := (binaryRead .LittleEndian 4 r).2
  if magic = FILE_MAGIC_GGML ∨ magic = FILE_MAGIC_GGMF ∨ magic = FILE_MAGIC_GGJT then
    (.err ErrUnsupportedFormat, r1)
  else if magic = FILE_MAGIC_GGLA then
    Outcome.andThen (containerLORA.Decode { version := 0 } r1) fun c r2 =>
      (.ok { magic := magic, container := .LORA c, model := none }, r2)
  else if magic = FILE_MAGIC_GGUF_LE then
    Outcome.andThen (containerGGUF.Decode (emptyGGUF .LittleEndian) r1)
      fun llm r2 =>
        (.ok { magic := magic, container := .GGUF llm.tocontainerGGUF, model := some llm }, r2)
  else if magic = FILE_MAGIC_GGUF_BE then
    Outcome.andThen (containerGGUF.Decode (emptyGGUF .BigEndian) r1)
      fun llm r2 =>
        (.ok { magic := magic, container := .GGUF llm.tocontainerGGUF, model := some llm }, r2)
  else (.err .invalidFileMagic, r1)

/-! ## The model view -/

def fileTypeF32 : Nat := 0
def fileTypeF16 : Nat := 1
def fileTypeQ4_0 : Nat := 2
def fileTypeQ4_1 : Nat := 3
def fileTypeQ4_1_F16 : Nat := 4
/-- The constant is declared as `iota + 2` on the sixth line of the block, where `iota` is 5. -/
def fileTypeQ8_0 : Nat := 5 + 2
def fileTypeQ5_0 : Nat := 6 + 2
def fileTypeQ5_1 : Nat := 7 + 2
def fileTypeQ2_K : Nat := 8 + 2
def fileTypeQ3_K_S : Nat := 9 + 2
def fileTypeQ3_K_M : Nat := 10 + 2
def fileTypeQ3_K_L : Nat := 11 + 2
def fileTypeQ4_K_S : Nat := 12 + 2
def fileTypeQ4_K_M : Nat := 13 + 2
def fileTypeQ5_K_S : Nat := 14 + 2
def fileTypeQ5_K_M : Nat := 15 + 2
def fileTypeQ6_K : Nat := 16 + 2

/-- The function `fileType`: the `switch` tries its cases from top to bottom. -/
def fileType (fileType : Nat) : List Byte :=
  if fileType = fileTypeF32 then asciiBytes "F32"
  else if fileType = fileTypeF16 then asciiBytes "F16"
  else if fileType = fileTypeQ4_0 then asciiBytes "Q4_0"
  else if fileType = fileTypeQ4_1 then asciiBytes "Q4_1"
  else if fileType = fileTypeQ4_1_F16 then asciiBytes "Q4_1_F16"
  else if fileType = fileTypeQ8_0 then asciiBytes "Q8_0"
  else if fileType = fileTypeQ5_0 then asciiBytes "Q5_0"
  else if fileType = fileTypeQ5_1 then asciiBytes "Q5_1"
  else if fileType = fileTypeQ2_K then asciiBytes "Q2_K"
  else if fileType = fileTypeQ3_K_S then asciiBytes "Q3_K_S"
  else if fileType = fileTypeQ3_K_M then asciiBytes "Q3_K_M"
  else if fileType = fileTypeQ3_K_L then asciiBytes "Q3_K_L"
  else if fileType = fileTypeQ4_K_S then asciiBytes "Q4_K_S"
  else if fileType = fileTypeQ4_K_M then asciiBytes "Q4_K_M"
  else if fileType = fileTypeQ5_K_S then asciiBytes "Q5_K_S"
  else if fileType = fileTypeQ5_K_M then asciiBytes "Q5_K_M"
  else if fileType = fileTypeQ6_K then asciiBytes "Q6_K"
  else asciiBytes "unknown"

/-- The checked type assertion `t, ok := m[k].(string)`: the zero value and `false` when the
key is absent or bound to a value of another type. -/
def kv.assertString (m : kv) (k : List Byte) : List Byte × Bool :=
  match m.get k with
  | some (.scalar (.string t)) => (t, true)
  | _ => ([], false)

/-- The checked type assertion `t, ok := m[k].(uint32)`: the zero value and `false` when the
key is absent or bound to a value of another type. -/
def kv.assertUint32 (m : kv) (k : List Byte) : Nat × Bool :=
  match m.get k with
  | some (.scalar (.uint32 t)) => (t, true)
  | _ => (0, false)

def ggufModel.ModelFamily (llm : ggufModel) : List Byte :=
  if (llm.kv.assertString (asciiBytes "general.architecture")).2 = true then
    (llm.kv.assertString (asciiBytes "general.architecture")).1
  else asciiBytes "unknown"

/-- Functions of the repository that `ggml.go` calls and that are defined in other files:
`format.HumanNumber` and the block-count tables of the three model families. -/
structure External where
  HumanNumber : Nat → List Byte
  llamaModelType : Nat → List Byte
  falconModelType : Nat → List Byte
  starCoderModelType : Nat → List Byte

/-- The method `ModelType`.  In `headsOK && headsKVsOK && heads/headKVs == 8` the division is
evaluated only when both assertions held, and dividing by zero is a runtime panic. -/
def ggufModel.ModelType (ext : External) (llm : ggufModel) : Outcome (List Byte) :=
  if llm.parameters > 0 then .ok (ext.HumanNumber llm.parameters)
  else if llm.ModelFamily = asciiBytes "llama" then
    if (llm.kv.assertUint32 (asciiBytes "llama.block_count")).2 = true then
      let blocks := (llm.kv.assertUint32 (asciiBytes "llama.block_count")).1
      let heads := llm.kv.assertUint32 (asciiBytes "llama.head_count")
      let headKVs := llm.kv.assertUint32 (asciiBytes "llama.head_count_kv")
      if heads.2 = true ∧ headKVs.2 = true then
        if headKVs.1 = 0 then .panic
        else if heads.1 / headKVs.1 = 8 then .ok (asciiBytes "70B")
        else .ok (ext.llamaModelType blocks)
      else .ok (ext.llamaModelType blocks)
    else .ok (asciiBytes "unknown")
  else if llm.ModelFamily = asciiBytes "falcon" then
    if (llm.kv.assertUint32 (asciiBytes "falcon.block_count")).2 = true then
      .ok (ext.falconModelType (llm.kv.assertUint32 (asciiBytes "falcon.block_count")).1)
    else .ok (asciiBytes "unknown")
  else if llm.ModelFamily = asciiBytes "starcoder" then
    if (llm.kv.assertUint32 (asciiBytes "starcoder.block_count")).2 = true then
      .ok (ext.starCoderModelType (llm.kv.assertUint32 (asciiBytes "starcoder.block_count")).1)
    else .ok (asciiBytes "unknown")
  else .ok (asciiBytes "unknown")

def ggufModel.FileType (llm : ggufModel) : List Byte :=
  if (llm.kv.assertUint32 (asciiBytes "general.file_type")).2 = true then
    fileType (llm.kv.assertUint32 (asciiBytes "general.file_type")).1
  else asciiBytes "unknown"

/-- The method `NumLayers`: the key is `fmt.Sprintf("%s.block_count", llm.ModelFamily())`, and
the unchecked assertion `value.(uint32)` panics on a value of another type. -/
def ggufModel.NumLayers (llm : ggufModel) : Outcome Int :=
  match llm.kv.get (llm.ModelFamily ++ asciiBytes ".block_count") with
  | none => .ok 0
  | some (.scalar (.uint32 v)) => .ok (v : Int)
  | some _ => .panic

/-! ## The wire format

The encoder below is written from the description of the format (it has no counterpart in
`ggml.go`, which only decodes); it is what the round-trip statements decode. -/

/-- The `w` low-order bytes of `x`, least significant first. -/
def putLE : Nat → Nat → List Byte
  | 0, _ => []
  | w + 1, x => ⟨x % 256, Nat.mod_lt x (by decide)⟩ :: putLE w (x / 256)

/-- A `w`-byte unsigned field in byte order `bo`. -/
def ByteOrder.put (bo : ByteOrder) (w x : Nat) : List Byte :=
  match bo with
  | .LittleEndian => putLE w x
  | .BigEndian => (putLE w x).reverse

/-- The two's-complement bit pattern of a signed `w`-bit integer. -/
def fromSigned (w : Nat) (x : Int) : Nat :=
  (x % 2 ^ w).toNat

/-- The type tag of a scalar kind. -/
def Scalar.tag : Scalar → Nat
  | .uint8 _ => ggufTypeUint8
  | .int8 _ => ggufTypeInt8
  | .uint16 _ => ggufTypeUint16
  | .int16 _ => ggufTypeInt16
  | .uint32 _ => ggufTypeUint32
  | .int32 _ => ggufTypeInt32
  | .uint64 _ => ggufTypeUint64
  | .int64 _ => ggufTypeInt64
  | .float32 _ => ggufTypeFloat32
  | .float64 _ => ggufTypeFloat64
  | .bool _ => ggufTypeBool
  | .string _ => ggufTypeString

/-- A string that fits its length field: 32 bits counting the terminator under version 1,
otherwise 64 bits (a Go string is shorter than `2 ^ 63` bytes). -/
def stringFits (v1 : Bool) (s : List Byte) : Bool :=
  if v1 then decide (s.length + 1 < 2 ^ 32) else decide (s.length < 2 ^ 63)

/-- The value lies in the range of its Go type, and a string fits its length field. -/
def Scalar.wellFormed (v1 : Bool) : Scalar → Bool
  | .uint8 x => decide (x < 2 ^ 8)
  | .int8 x => decide (-(2 ^ 7) ≤ x ∧ x < 2 ^ 7)
  | .uint16 x => decide (x < 2 ^ 16)
  | .int16 x => decide (-(2 ^ 15) ≤ x ∧ x < 2 ^ 15)
  | .uint32 x => decide (x < 2 ^ 32)
  | .int32 x => decide (-(2 ^ 31) ≤ x ∧ x < 2 ^ 31)
  | .uint64 x => decide (x < 2 ^ 64)
  | .int64 x => decide (-(2 ^ 63) ≤ x ∧ x < 2 ^ 63)
  | .float32 bits => decide (bits < 2 ^ 32)
  | .float64 bits => decide (bits < 2 ^ 64)
  | .bool _ => true
  | .string s => stringFits v1 s

/-- A length-prefixed string: under version 1 the 32-bit length counts a trailing zero byte,
otherwise the length is 64 bits wide and there is no terminator. -/
def encodeString (bo : ByteOrder) (v1 : Bool) (s : List Byte) : List Byte :=
  if v1 then bo.put 4 (s.length + 1) ++ s ++ [0] else bo.put 8 s.length ++ s

/-- The payload of a scalar. -/
def encodeScalar (bo : ByteOrder) (v1 : Bool) : Scalar → List Byte
  | .uint8 x => bo.put 1 x
  | .int8 x => bo.put 1 (fromSigned 8 x)
  | .uint16 x => bo.put 2 x
  | .int16 x => bo.put 2 (fromSigned 16 x)
  | .uint32 x => bo.put 4 x
  | .int32 x => bo.put 4 (fromSigned 32 x)
  | .uint64 x => bo.put 8 x
  | .int64 x => bo.put 8 (fromSigned 64 x)
  | .float32 bits => bo.put 4 bits
  | .float64 bits => bo.put 8 bits
  | .bool b => bo.put 1 (if b then 1 else 0)
  | .string s => encodeString bo v1 s

def encodeScalars (bo : ByteOrder) (v1 : Bool) : List Scalar → List Byte
  | [] => []
  | x :: xs => encodeScalar bo v1 x ++ encodeScalars bo v1 xs

/-- A value as it is written: an array carries the tag of its elements. -/
inductive WireValue
  | scalar (x : Scalar)
  | array (atype : Nat) (xs : List Scalar)
deriving DecidableEq, Repr

/-- The value a written value stands for. -/
def WireValue.toValue : WireValue → Value
  | .scalar x => .scalar x
  | .array _ xs => .array xs

def WireValue.tag : WireValue → Nat
  | .scalar x => x.tag
  | .array _ _ => ggufTypeArray

/-- Width in bytes of a count field. -/
def countWidth (v1 : Bool) : Nat :=
  if v1 then 4 else 8

/-- A scalar is well formed; an array is homogeneous (every element has the array's element
tag), its element tag is one of the scalar tags the version knows (0 to 8 under version 1;
0 to 8 and 10 to 12 otherwise), its length fits the count field and its elements are well
formed. -/
def WireValue.wellFormed (v1 : Bool) : WireValue → Bool
  | .scalar x => x.wellFormed v1
  | .array atype xs =>
    decide (atype ≤ 12 ∧ atype ≠ ggufTypeArray ∧ (v1 = true → atype ≤ 8)) &&
    decide (xs.length < 2 ^ (8 * countWidth v1)) &&
    xs.all (fun x => decide (x.tag = atype) && x.wellFormed v1)

/-- The payload of a value: an array is element tag, count, elements. -/
def encodeValue (bo : ByteOrder) (v1 : Bool) : WireValue → List Byte
  | .scalar x => encodeScalar bo v1 x
  | .array atype xs =>
    bo.put 4 atype ++ bo.put (countWidth v1) xs.length ++ encodeScalars bo v1 xs

/-- A key-value entry: key, 32-bit type tag, payload. -/
def encodeKV (bo : ByteOrder) (v1 : Bool) (e : List Byte × WireValue) : List Byte :=
  encodeString bo v1 e.1 ++ bo.put 4 e.2.tag ++ encodeValue bo v1 e.2

def encodeKVs (bo : ByteOrder) (v1 : Bool) : List (List Byte × WireValue) → List Byte
  | [] => []
  | e :: es => encodeKV bo v1 e ++ encodeKVs bo v1 es

def kvWellFormed (v1 : Bool) (e : List Byte × WireValue) : Bool :=
  stringFits v1 e.1 && e.2.wellFormed v1

/-- A tensor descriptor: name, extents, element-type tag, byte offset. -/
structure TensorInfo where
  name : List Byte
  extents : List Nat
  kind : Nat
  offset : Nat
deriving DecidableEq, Repr

def TensorInfo.wellFormed (v1 : Bool) (t : TensorInfo) : Bool :=
  stringFits v1 t.name && decide (t.extents.length < 2 ^ 32) &&
  t.extents.all (fun d => decide (d < 2 ^ 64)) &&
  decide (t.kind < 2 ^ 32) && decide (t.offset < 2 ^ 64)

def encodeExtents (bo : ByteOrder) : List Nat → List Byte
  | [] => []
  | d :: ds => bo.put 8 d ++ encodeExtents bo ds

/-- A tensor descriptor on the wire: name, 32-bit dimension count, 64-bit extents, 32-bit
element-type tag, 64-bit offset. -/
def encodeTensor (bo : ByteOrder) (v1 : Bool) (t : TensorInfo) : List Byte :=
  encodeString bo v1 t.name ++ bo.put 4 t.extents.length ++ encodeExtents bo t.extents ++
  bo.put 4 t.kind ++ bo.put 8 t.offset

def encodeTensors (bo : ByteOrder) (v1 : Bool) : List TensorInfo → List Byte
  | [] => []
  | t :: ts => encodeTensor bo v1 t ++ encodeTensors bo v1 ts

/-- What follows the magic of a GGUF file: version, entries and tensor descriptors; the two
counts of the header are the numbers of entries and of descriptors. -/
structure Body where
  version : Nat
  kvs : List (List Byte × WireValue)
  tensors : List TensorInfo
deriving DecidableEq, Repr

def Body.v1 (b : Body) : Bool :=
  decide (b.version = 1)

def Body.wellFormed (b : Body) : Bool :=
  decide (b.version < 2 ^ 32) &&
  decide (b.kvs.length < 2 ^ (8 * countWidth b.v1)) &&
  decide (b.tensors.length < 2 ^ (8 * countWidth b.v1)) &&
  b.kvs.all (kvWellFormed b.v1) && b.tensors.all (TensorInfo.wellFormed b.v1)

/-- The body on the wire: 32-bit version, tensor count, key-value count (32 bits each under
version 1, 64 bits otherwise), the entries, the descriptors. -/
def encodeBody (bo : ByteOrder) (b : Body) : List Byte :=
  bo.put 4 b.version ++ bo.put (countWidth b.v1) b.tensors.length ++
  bo.put (countWidth b.v1) b.kvs.length ++
  encodeKVs bo b.v1 b.kvs ++ encodeTensors bo b.v1 b.tensors

/-- The dictionary that assigning the entries in order builds from `m`. -/
def insertAll (m : kv) : List (List Byte × WireValue) → kv
  | [] => m
  | e :: es => insertAll (m.set e.1 e.2.toValue) es

/-- Number of elements of a tensor: the product of its extents. -/
def TensorInfo.elements (t : TensorInfo) : Nat :=
  t.extents.foldr (fun d acc => d * acc) 1

/-- Sum of the element counts of the descriptors. -/
def totalElements : List TensorInfo → Nat
  | [] => 0
  | t :: ts => t.elements + totalElements ts

/-- The model that the body `b` describes, in a container of byte order `bo` that was empty
before: the count pair the version selects is set and the other one is zero. -/
def Body.model (b : Body) (bo : ByteOrder) : ggufModel :=
  { bo := bo
    Version := b.version
    V1 := if b.version = 1 then ⟨b.tensors.length, b.kvs.length⟩ else ⟨0, 0⟩
    V2 := if b.version = 1 then ⟨0, 0⟩ else ⟨b.tensors.length, b.kvs.length⟩
    parameters := totalElements b.tensors % 2 ^ 64
    kv := insertAll [] b.kvs }

/-- The magic that announces byte order `bo`, as `DecodeGGML` reads it. -/
def ggufMagic (bo : ByteOrder) : Nat :=
  match bo with
  | .LittleEndian => FILE_MAGIC_GGUF_LE
  | .BigEndian => FILE_MAGIC_GGUF_BE

/-! ## Sample files -/

/-- Three entries with a repeated key and one tensor of extents `[2, 3, 4]`. -/
def sampleBody : Body :=
  { version := 3
    kvs := [(asciiBytes "n", .scalar (.uint32 32)),
            (asciiBytes "tok", .array ggufTypeString [.string (asciiBytes "hi"), .string []]),
            (asciiBytes "n", .scalar (.string (asciiBytes "x")))]
    tensors := [{ name := asciiBytes "w", extents := [2, 3, 4], kind := 0, offset := 0 }] }

/-- Entries with distinct keys and values of several kinds. -/
def sampleKVs : List (List Byte × WireValue) :=
  [(asciiBytes "a", .scalar (.int16 (-2))),
   (asciiBytes "b", .scalar (.bool true)),
   (asciiBytes "c", .array ggufTypeUint64 [.uint64 (2 ^ 40), .uint64 1]),
   (asciiBytes "d", .scalar (.string (asciiBytes "llama")))]

/-- A version 2 model that expects two entries, and a key-value section whose second entry
carries the type tag 13. -/
def sampleModel : ggufModel :=
  newGGUFModel { emptyGGUF .LittleEndian with Version := 2, V2 := ⟨0, 2⟩ }

def sampleBadSection : Stream :=
  [1, 0, 0, 0, 0, 0, 0, 0, 97, 0, 0, 0, 0, 5,
   1, 0, 0, 0, 0, 0, 0, 0, 98, 13, 0, 0, 0, 255]

/-- A version 1 model, as `containerGGUF.Decode` builds it before the key-value section. -/
def sampleModelV1 : ggufModel :=
  newGGUFModel { emptyGGUF .LittleEndian with Version := 1, V1 := ⟨0, 1⟩ }

/-- A dictionary without `general.architecture` that binds `unknown.block_count`. -/
def sampleUnknownFamily : ggufModel :=
  { newGGUFModel (emptyGGUF .LittleEndian) with
    kv := [(asciiBytes "unknown.block_count", .scalar (.uint32 7))] }

/-- A llama dictionary whose block count is a 64-bit unsigned integer. -/
def sampleWideBlockCount : ggufModel :=
  { newGGUFModel (emptyGGUF .LittleEndian) with
    kv := [(asciiBytes "general.architecture", .scalar (.string (asciiBytes "llama"))),
           (asciiBytes "llama.block_count", .scalar (.uint64 32))] }

/-- A llama dictionary with the given block count and head counts, parameter total 0. -/
def sampleLlama (blocks heads headKVs : Nat) : ggufModel :=
  { newGGUFModel (emptyGGUF .LittleEndian) with
    kv := [(asciiBytes "general.architecture", .scalar (.string (asciiBytes "llama"))),
           (asciiBytes "llama.block_count", .scalar (.uint32 blocks)),
           (asciiBytes "llama.head_count", .scalar (.uint32 heads)),
           (asciiBytes "llama.head_count_kv", .scalar (.uint32 headKVs))] }

/-- A dictionary that binds `general.file_type` to the 32-bit unsigned code `c`. -/
def sampleFileType (c : Nat) : ggufModel :=
  { newGGUFModel (emptyGGUF .LittleEndian) with
    kv := [(asciiBytes "general.file_type", .scalar (.uint32 c))] }

/-- A file body whose llama block count is written as a 64-bit unsigned integer. -/
def sampleWideBody : Body :=
  { version := 3
    kvs := [(asciiBytes "general.architecture", .scalar (.string (asciiBytes "llama"))),
            (asciiBytes "llama.block_count", .scalar (.uint64 32))]
    tensors := [] }

/-- A file body of a llama model without tensors whose `llama.head_count_kv` is 0. -/
def sampleZeroHeadsBody : Body :=
  { version := 3
    kvs := [(asciiBytes "general.architecture", .scalar (.string (asciiBytes "llama"))),
            (asciiBytes "llama.block_count", .scalar (.uint32 32)),
            (asciiBytes "llama.head_count", .scalar (.uint32 32)),
            (asciiBytes "llama.head_count_kv", .scalar (.uint32 0))]
    tensors := [] }

/-- A file body without `general.architecture` that binds `unknown.block_count`. -/
def sampleUnknownBody : Body :=
  { version := 3
    kvs := [(asciiBytes "unknown.block_count", .scalar (.uint32 7))]
    tensors := [] }

/-! ## Basic facts about the readers -/

theorem ReadFull_append (bs : List Byte) (rest : Stream) :
    ReadFull bs.length (bs ++ rest) = (.ok bs, rest) := by
  simp [ReadFull]

theorem binaryRead_append (bo : ByteOrder) (bs : List Byte) (rest : Stream) :
    binaryRead bo bs.length (bs ++ rest) = (some (bo.Uint bs), rest) := by
  simp [binaryRead, ReadFull_append]

theorem binaryRead_short (bo : ByteOrder) (w : Nat) (r : Stream) (h : r.length < w) :
    binaryRead bo w r = (none, []) := by
  unfold binaryRead ReadFull
  have h1 : ¬ w ≤ r.length := by omega
  simp only [h1, if_false]
  split_ifs <;> rfl

theorem binaryRead_full (bo : ByteOrder) (w : Nat) (r : Stream) (h : w ≤ r.length) :
    binaryRead bo w r = (some (bo.Uint (r.take w)), r.drop w) := by
  unfold binaryRead ReadFull
  simp only [h, if_true]

theorem CopyN_append (bs : List Byte) (rest : Stream) :
    CopyN (bs ++ rest) (bs.length : Int) = (.ok bs, rest) := by
  simp [CopyN]

theorem andThen_ne {α β : Type} (x : Outcome α × Stream)
    (f : α → Stream → Outcome β × Stream) (e : GoError)
    (hx : x.1 ≠ .err e) (hf : ∀ a r, (f a r).1 ≠ .err e) :
    (Outcome.andThen x f).1 ≠ .err e := by
  obtain ⟨o, r⟩ := x
  cases o with
  | ok a => exact hf a r
  | err e1 =>
    intro h
    apply hx
    simpa [Outcome.andThen] using h
  | panic => simp [Outcome.andThen]

/-! ## The GGUF decoder never reports a bad magic -/

theorem ok_ne_err {α : Type} (a : α) (r : Stream) (e : GoError) :
    ((Outcome.ok a, r) : Outcome α × Stream).1 ≠ .err e := by
  simp

theorem ite_fst_ne {α : Type} (c : Prop) [Decidable c] (x y : Outcome α × Stream)
    (o : Outcome α) (hx : x.1 ≠ o) (hy : y.1 ≠ o) : (if c then x else y).1 ≠ o := by
  split <;> assumption

theorem CopyN_error (r r1 : Stream) (n : Int) (e : GoError)
    (h : CopyN r n = (.error e, r1)) : e = .EOF := by
  unfold CopyN at h
  split_ifs at h <;> simp at h
  exact h.1.symm

theorem readStringV1_ne_magic (llm : ggufModel) (r : Stream) :
    (llm.readStringV1 r).1 ≠ .err .invalidFileMagic := by
  unfold ggufModel.readStringV1
  dsimp only
  split
  · next e r1 heq =>
    rw [CopyN_error _ _ _ _ heq]
    simp
  · split <;> simp

theorem readString_ne_magic (llm : ggufModel) (r : Stream) :
    (llm.readString r).1 ≠ .err .invalidFileMagic := by
  unfold ggufModel.readString
  split
  · exact readStringV1_ne_magic llm r
  · dsimp only
    split
    · next e r1 heq =>
      rw [CopyN_error _ _ _ _ heq]
      simp
    · simp

theorem readElemV1_ne_magic (llm : ggufModel) (atype : Nat) (r : Stream) :
    (llm.readElemV1 atype r).1 ≠ .err .invalidFileMagic := by
  unfold ggufModel.readElemV1
  repeat' first
    | exact ok_ne_err _ _ _
    | exact andThen_ne _ _ _ (readStringV1_ne_magic llm r) (fun a r1 => ok_ne_err _ _ _)
    | apply ite_fst_ne
    | simp

theorem readElem_ne_magic (llm : ggufModel) (atype : Nat) (r : Stream) :
    (llm.readElem atype r).1 ≠ .err .invalidFileMagic := by
  unfold ggufModel.readElem
  repeat' first
    | exact ok_ne_err _ _ _
    | exact andThen_ne _ _ _ (readString_ne_magic llm r) (fun a r1 => ok_ne_err _ _ _)
    | apply ite_fst_ne
    | simp

theorem readArrayV1Loop_ne_magic (llm : ggufModel) (atype n : Nat) :
    ∀ (arr : List Scalar) (r : Stream),
      (llm.readArrayV1Loop atype n arr r).1 ≠ .err .invalidFileMagic := by
  induction n with
  | zero => intro arr r; simp [ggufModel.readArrayV1Loop]
  | succ n ih =>
    intro arr r
    rw [ggufModel.readArrayV1Loop]
    exact andThen_ne _ _ _ (readElemV1_ne_magic llm atype r) (fun a r1 => ih _ r1)

theorem readArrayLoop_ne_magic (llm : ggufModel) (atype n : Nat) :
    ∀ (arr : List Scalar) (r : Stream),
      (llm.readArrayLoop atype n arr r).1 ≠ .err .invalidFileMagic := by
  induction n with
  | zero => intro arr r; simp [ggufModel.readArrayLoop]
  | succ n ih =>
    intro arr r
    rw [ggufModel.readArrayLoop]
    exact andThen_ne _ _ _ (readElem_ne_magic llm atype r) (fun a r1 => ih _ r1)

theorem readArray_ne_magic (llm : ggufModel) (r : Stream) :
    (llm.readArray r).1 ≠ .err .invalidFileMagic := by
  unfold ggufModel.readArray ggufModel.readArrayV1
  split_ifs
  · exact readArrayV1Loop_ne_magic llm _ _ _ _
  · exact readArrayLoop_ne_magic llm _ _ _ _

theorem readValue_ne_magic (llm : ggufModel) (vtype : Nat) (r : Stream) :
    (llm.readValue vtype r).1 ≠ .err .invalidFileMagic := by
  unfold ggufModel.readValue
  repeat' first
    | apply ite_fst_ne
    | exact ok_ne_err _ _ _
    | exact andThen_ne _ _ _ (readString_ne_magic llm r) (fun a r1 => ok_ne_err _ _ _)
    | exact andThen_ne _ _ _ (readArray_ne_magic llm r) (fun a r1 => ok_ne_err _ _ _)
    | simp

theorem decodeKVs_ne_magic (n : Nat) :
    ∀ (llm : ggufModel) (r : Stream),
      (ggufModel.decodeKVs n llm r).1 ≠ .err .invalidFileMagic := by
  induction n with
  | zero => intro llm r; simp [ggufModel.decodeKVs]
  | succ n ih =>
    intro llm r
    rw [ggufModel.decodeKVs]
    refine andThen_ne _ _ _ (readString_ne_magic llm r) (fun k r1 => ?_)
    exact andThen_ne _ _ _ (readValue_ne_magic llm _ _) (fun v r2 => ih _ r2)

theorem decodeTensors_ne_magic (n : Nat) :
    ∀ (llm : ggufModel) (r : Stream),
      (ggufModel.decodeTensors n llm r).1 ≠ .err .invalidFileMagic := by
  induction n with
  | zero => intro llm r; simp [ggufModel.decodeTensors]
  | succ n ih =>
    intro llm r
    rw [ggufModel.decodeTensors]
    exact andThen_ne _ _ _ (readString_ne_magic llm r) (fun k r1 => ih _ _)

theorem ggufDecode_ne_magic (llm : ggufModel) (r : Stream) :
    (llm.Decode r).1 ≠ .err .invalidFileMagic := by
  unfold ggufModel.Decode
  exact andThen_ne _ _ _ (decodeKVs_ne_magic _ llm r) (fun l r1 => decodeTensors_ne_magic _ l r1)

theorem containerGGUF_Decode_ne_magic (c : containerGGUF) (r : Stream) :
    (c.Decode r).1 ≠ .err .invalidFileMagic :=
  ggufDecode_ne_magic _ _

theorem containerLORA_Decode_ne_magic (c : containerLORA) (r : Stream) :
    (c.Decode r).1 ≠ .err .invalidFileMagic := by
  unfold containerLORA.Decode
  dsimp only
  split_ifs <;> simp

/-- The magic of a stream that starts with the four bytes `mb`. -/
theorem DecodeGGML_magic (mb : List Byte) (rest : Stream) (hlen : mb.length = 4) :
    binaryRead .LittleEndian 4 (mb ++ rest) = (some (leUint mb), rest) := by
  have h := binaryRead_append .LittleEndian mb rest
  rw [hlen] at h
  exact h

/-! ## Reading back what the encoder wrote -/

theorem putLE_length (w x : Nat) : (putLE w x).length = w := by
  induction w generalizing x with
  | zero => rfl
  | succ w ih => simp [putLE, ih]

theorem leUint_putLE (w x : Nat) : leUint (putLE w x) = x % 256 ^ w := by
  induction w generalizing x with
  | zero => simp [putLE, leUint, Nat.mod_one]
  | succ w ih =>
    simp only [putLE, leUint, ih]
    rw [pow_succ, mul_comm (256 ^ w) 256, Nat.mod_mul]

theorem put_length (bo : ByteOrder) (w x : Nat) : (bo.put w x).length = w := by
  cases bo <;> simp [ByteOrder.put, putLE_length]

theorem Uint_put (bo : ByteOrder) (w x : Nat) : bo.Uint (bo.put w x) = x % 256 ^ w := by
  cases bo <;> simp [ByteOrder.put, ByteOrder.Uint, leUint_putLE]

theorem binaryRead_put (bo : ByteOrder) (w x : Nat) (rest : Stream) :
    binaryRead bo w (bo.put w x ++ rest) = (some (x % 256 ^ w), rest) := by
  have h := binaryRead_append bo (bo.put w x) rest
  rw [put_length, Uint_put] at h
  exact h

theorem readBits_put (llm : ggufModel) (w x : Nat) (rest : Stream) (h : x < 256 ^ w) :
    llm.readBits w (llm.bo.put w x ++ rest) = (x, rest) := by
  simp [ggufModel.readBits, binaryRead_put, Nat.mod_eq_of_lt h]

theorem toSigned_fromSigned_8 (x : Int) (h1 : -(2 ^ 7) ≤ x) (h2 : x < 2 ^ 7) :
    toSigned 8 (fromSigned 8 x) = x ∧ fromSigned 8 x < 256 ^ 1 := by
  unfold toSigned fromSigned
  norm_num at h1 h2 ⊢
  constructor
  · split_ifs <;> omega
  · omega

theorem toSigned_fromSigned_16 (x : Int) (h1 : -(2 ^ 15) ≤ x) (h2 : x < 2 ^ 15) :
    toSigned 16 (fromSigned 16 x) = x ∧ fromSigned 16 x < 256 ^ 2 := by
  unfold toSigned fromSigned
  norm_num at h1 h2 ⊢
  constructor
  · split_ifs <;> omega
  · omega

theorem toSigned_fromSigned_32 (x : Int) (h1 : -(2 ^ 31) ≤ x) (h2 : x < 2 ^ 31) :
    toSigned 32 (fromSigned 32 x) = x ∧ fromSigned 32 x < 256 ^ 4 := by
  unfold toSigned fromSigned
  norm_num at h1 h2 ⊢
  constructor
  · split_ifs <;> omega
  · omega

theorem toSigned_fromSigned_64 (x : Int) (h1 : -(2 ^ 63) ≤ x) (h2 : x < 2 ^ 63) :
    toSigned 64 (fromSigned 64 x) = x ∧ fromSigned 64 x < 256 ^ 8 := by
  unfold toSigned fromSigned
  norm_num at h1 h2 ⊢
  constructor
  · split_ifs <;> omega
  · omega

theorem readStringV1_encode (llm : ggufModel) (s : List Byte) (rest : Stream)
    (h : s.length + 1 < 2 ^ 32) :
    llm.readStringV1 (encodeString llm.bo true s ++ rest) = (.ok s, rest) := by
  have hlt : s.length + 1 < 256 ^ 4 := by norm_num at h ⊢; exact h
  have hc := CopyN_append (s ++ [0]) rest
  unfold ggufModel.readStringV1 encodeString
  simp only [if_true, List.append_assoc, readBits_put llm 4 (s.length + 1) _ hlt]
  have hlen : ((s.length + 1 : Nat) : Int) = ((s ++ [0]).length : Int) := by simp
  rw [List.append_assoc] at hc
  rw [hlen, hc]
  simp

theorem readString_encode (llm : ggufModel) (s : List Byte) (rest : Stream)
    (h : stringFits (decide (llm.Version = 1)) s = true) :
    llm.readString (encodeString llm.bo (decide (llm.Version = 1)) s ++ rest) = (.ok s, rest) := by
  unfold ggufModel.readString
  by_cases hv : llm.Version = 1
  · simp only [hv, if_true, decide_True]
    apply readStringV1_encode
    simpa [stringFits, hv] using h
  · have h63 : s.length < 2 ^ 63 := by simpa [stringFits, hv] using h
    have hlt : s.length < 256 ^ 8 := by norm_num at h63 ⊢; omega
    have hs : toSigned 64 s.length = (s.length : Int) := by
      unfold toSigned
      rw [if_pos (by norm_num at h63 ⊢; exact h63)]
    simp only [hv, if_false, decide_False, encodeString, Bool.false_eq_true, List.append_assoc,
      readBits_put llm 8 s.length _ hlt, hs, CopyN_append]

theorem readU8_put (llm : ggufModel) (x : Nat) (rest : Stream) (h : x < 2 ^ 8) :
    llm.readU8 (llm.bo.put 1 x ++ rest) = (x, rest) :=
  readBits_put llm 1 x rest (by norm_num at h ⊢; exact h)

theorem readU16_put (llm : ggufModel) (x : Nat) (rest : Stream) (h : x < 2 ^ 16) :
    llm.readU16 (llm.bo.put 2 x ++ rest) = (x, rest) :=
  readBits_put llm 2 x rest (by norm_num at h ⊢; exact h)

theorem readU32_put (llm : ggufModel) (x : Nat) (rest : Stream) (h : x < 2 ^ 32) :
    llm.readU32 (llm.bo.put 4 x ++ rest) = (x, rest) :=
  readBits_put llm 4 x rest (by norm_num at h ⊢; exact h)

theorem readU64_put (llm : ggufModel) (x : Nat) (rest : Stream) (h : x < 2 ^ 64) :
    llm.readU64 (llm.bo.put 8 x ++ rest) = (x, rest) :=
  readBits_put llm 8 x rest (by norm_num at h ⊢; exact h)

theorem readF32_put (llm : ggufModel) (x : Nat) (rest : Stream) (h : x < 2 ^ 32) :
    llm.readF32 (llm.bo.put 4 x ++ rest) = (x, rest) :=
  readU32_put llm x rest h

theorem readF64_put (llm : ggufModel) (x : Nat) (rest : Stream) (h : x < 2 ^ 64) :
    llm.readF64 (llm.bo.put 8 x ++ rest) = (x, rest) :=
  readU64_put llm x rest h

theorem readI8_put (llm : ggufModel) (x : Int) (rest : Stream)
    (h1 : -(2 ^ 7) ≤ x) (h2 : x < 2 ^ 7) :
    llm.readI8 (llm.bo.put 1 (fromSigned 8 x) ++ rest) = (x, rest) := by
  obtain ⟨ha, hb⟩ := toSigned_fromSigned_8 x h1 h2
  simp [ggufModel.readI8, readBits_put llm 1 _ rest hb, ha]

theorem readI16_put (llm : ggufModel) (x : Int) (rest : Stream)
    (h1 : -(2 ^ 15) ≤ x) (h2 : x < 2 ^ 15) :
    llm.readI16 (llm.bo.put 2 (fromSigned 16 x) ++ rest) = (x, rest) := by
  obtain ⟨ha, hb⟩ := toSigned_fromSigned_16 x h1 h2
  simp [ggufModel.readI16, readBits_put llm 2 _ rest hb, ha]

theorem readI32_put (llm : ggufModel) (x : Int) (rest : Stream)
    (h1 : -(2 ^ 31) ≤ x) (h2 : x < 2 ^ 31) :
    llm.readI32 (llm.bo.put 4 (fromSigned 32 x) ++ rest) = (x, rest) := by
  obtain ⟨ha, hb⟩ := toSigned_fromSigned_32 x h1 h2
  simp [ggufModel.readI32, readBits_put llm 4 _ rest hb, ha]

theorem readI64_put (llm : ggufModel) (x : Int) (rest : Stream)
    (h1 : -(2 ^ 63) ≤ x) (h2 : x < 2 ^ 63) :
    llm.readI64 (llm.bo.put 8 (fromSigned 64 x) ++ rest) = (x, rest) := by
  obtain ⟨ha, hb⟩ := toSigned_fromSigned_64 x h1 h2
  simp [ggufModel.readI64, readBits_put llm 8 _ rest hb, ha]

theorem readBool_put (llm : ggufModel) (b : Bool) (rest : Stream) :
    llm.readBool (llm.bo.put 1 (if b then 1 else 0) ++ rest) = (b, rest) := by
  cases b
  · have h := readBits_put llm 1 0 rest (by norm_num)
    simp [ggufModel.readBool, h]
  · have h := readBits_put llm 1 1 rest (by norm_num)
    simp [ggufModel.readBool, h]

theorem readElemV1_encode (llm : ggufModel) (x : Scalar) (rest : Stream)
    (htag : x.tag ≤ 8) (hwf : x.wellFormed true = true) :
    llm.readElemV1 x.tag (encodeScalar llm.bo true x ++ rest) = (.ok x, rest) := by
  cases x with
  | uint8 v =>
    have h : v < 2 ^ 8 := by simpa [Scalar.wellFormed] using hwf
    simp [ggufModel.readElemV1, Scalar.tag, ggufTypeUint8, encodeScalar, readU8_put llm v rest h]
  | int8 v =>
    have h : -(2 ^ 7) ≤ v ∧ v < 2 ^ 7 := by simpa [Scalar.wellFormed] using hwf
    simp [ggufModel.readElemV1, Scalar.tag, ggufTypeUint8, ggufTypeInt8, encodeScalar,
      readI8_put llm v rest h.1 h.2]
  | uint16 v =>
    have h : v < 2 ^ 16 := by simpa [Scalar.wellFormed] using hwf
    simp [ggufModel.readElemV1, Scalar.tag, ggufTypeUint8, ggufTypeInt8, ggufTypeUint16,
      encodeScalar, readU16_put llm v rest h]
  | int16 v =>
    have h : -(2 ^ 15) ≤ v ∧ v < 2 ^ 15 := by simpa [Scalar.wellFormed] using hwf
    simp [ggufModel.readElemV1, Scalar.tag, ggufTypeUint8, ggufTypeInt8, ggufTypeUint16,
      ggufTypeInt16, encodeScalar, readI16_put llm v rest h.1 h.2]
  | uint32 v =>
    have h : v < 2 ^ 32 := by simpa [Scalar.wellFormed] using hwf
    simp [ggufModel.readElemV1, Scalar.tag, ggufTypeUint8, ggufTypeInt8, ggufTypeUint16,
      ggufTypeInt16, ggufTypeUint32, encodeScalar, readU32_put llm v rest h]
  | int32 v =>
    have h : -(2 ^ 31) ≤ v ∧ v < 2 ^ 31 := by simpa [Scalar.wellFormed] using hwf
    simp [ggufModel.readElemV1, Scalar.tag, ggufTypeUint8, ggufTypeInt8, ggufTypeUint16,
      ggufTypeInt16, ggufTypeUint32, ggufTypeInt32, encodeScalar, readI32_put llm v rest h.1 h.2]
  | uint64 v => simp [Scalar.tag, ggufTypeUint64] at htag
  | int64 v => simp [Scalar.tag, ggufTypeInt64] at htag
  | float32 v =>
    have h : v < 2 ^ 32 := by simpa [Scalar.wellFormed] using hwf
    simp [ggufModel.readElemV1, Scalar.tag, ggufTypeUint8, ggufTypeInt8, ggufTypeUint16,
      ggufTypeInt16, ggufTypeUint32, ggufTypeInt32, ggufTypeFloat32, encodeScalar,
      readF32_put llm v rest h]
  | float64 v => simp [Scalar.tag, ggufTypeFloat64] at htag
  | bool v =>
    simp only [ggufModel.readElemV1, Scalar.tag, ggufTypeUint8, ggufTypeInt8, ggufTypeUint16,
      ggufTypeInt16, ggufTypeUint32, ggufTypeInt32, ggufTypeFloat32, ggufTypeBool, encodeScalar,
      readBool_put llm v rest]
    simp
  | string v =>
    have h : v.length + 1 < 2 ^ 32 := by simpa [Scalar.wellFormed, stringFits] using hwf
    simp [ggufModel.readElemV1, Scalar.tag, ggufTypeUint8, ggufTypeInt8, ggufTypeUint16,
      ggufTypeInt16, ggufTypeUint32, ggufTypeInt32, ggufTypeFloat32, ggufTypeBool,
      ggufTypeString, encodeScalar, readStringV1_encode llm v rest h, Outcome.andThen]

theorem readElem_encode (llm : ggufModel) (x : Scalar) (rest : Stream)
    (hwf : x.wellFormed (decide (llm.Version = 1)) = true) :
    llm.readElem x.tag (encodeScalar llm.bo (decide (llm.Version = 1)) x ++ rest) =
      (.ok x, rest) := by
  cases x with
  | uint8 v =>
    have h : v < 2 ^ 8 := by simpa [Scalar.wellFormed] using hwf
    simp [ggufModel.readElem, Scalar.tag, ggufTypeUint8, ggufTypeInt8, ggufTypeUint16, ggufTypeInt16, ggufTypeUint32, ggufTypeInt32,
      ggufTypeUint64, ggufTypeInt64, ggufTypeFloat32, ggufTypeFloat64, ggufTypeBool, ggufTypeString,
      ggufTypeArray, encodeScalar,
      readU8_put llm v rest h]
  | int8 v =>
    have h : -(2 ^ 7) ≤ v ∧ v < 2 ^ 7 := by simpa [Scalar.wellFormed] using hwf
    simp [ggufModel.readElem, Scalar.tag, ggufTypeUint8, ggufTypeInt8, ggufTypeUint16, ggufTypeInt16, ggufTypeUint32, ggufTypeInt32,
      ggufTypeUint64, ggufTypeInt64, ggufTypeFloat32, ggufTypeFloat64, ggufTypeBool, ggufTypeString,
      ggufTypeArray, encodeScalar,
      readI8_put llm v rest h.1 h.2]
  | uint16 v =>
    have h : v < 2 ^ 16 := by simpa [Scalar.wellFormed] using hwf
    simp [ggufModel.readElem, Scalar.tag, ggufTypeUint8, ggufTypeInt8, ggufTypeUint16, ggufTypeInt16, ggufTypeUint32, ggufTypeInt32,
      ggufTypeUint64, ggufTypeInt64, ggufTypeFloat32, ggufTypeFloat64, ggufTypeBool, ggufTypeString,
      ggufTypeArray, encodeScalar,
      readU16_put llm v rest h]
  | int16 v =>
    have h : -(2 ^ 15) ≤ v ∧ v < 2 ^ 15 := by simpa [Scalar.wellFormed] using hwf
    simp [ggufModel.readElem, Scalar.tag, ggufTypeUint8, ggufTypeInt8, ggufTypeUint16, ggufTypeInt16, ggufTypeUint32, ggufTypeInt32,
      ggufTypeUint64, ggufTypeInt64, ggufTypeFloat32, ggufTypeFloat64, ggufTypeBool, ggufTypeString,
      ggufTypeArray, encodeScalar,
      readI16_put llm v rest h.1 h.2]
  | uint32 v =>
    have h : v < 2 ^ 32 := by simpa [Scalar.wellFormed] using hwf
    simp [ggufModel.readElem, Scalar.tag, ggufTypeUint8, ggufTypeInt8, ggufTypeUint16, ggufTypeInt16, ggufTypeUint32, ggufTypeInt32,
      ggufTypeUint64, ggufTypeInt64, ggufTypeFloat32, ggufTypeFloat64, ggufTypeBool, ggufTypeString,
      ggufTypeArray, encodeScalar,
      readU32_put llm v rest h]
  | int32 v =>
    have h : -(2 ^ 31) ≤ v ∧ v < 2 ^ 31 := by simpa [Scalar.wellFormed] using hwf
    simp [ggufModel.readElem, Scalar.tag, ggufTypeUint8, ggufTypeInt8, ggufTypeUint16, ggufTypeInt16, ggufTypeUint32, ggufTypeInt32,
      ggufTypeUint64, ggufTypeInt64, ggufTypeFloat32, ggufTypeFloat64, ggufTypeBool, ggufTypeString,
      ggufTypeArray, encodeScalar,
      readI32_put llm v rest h.1 h.2]
  | uint64 v =>
    have h : v < 2 ^ 64 := by simpa [Scalar.wellFormed] using hwf
    simp [ggufModel.readElem, Scalar.tag, ggufTypeUint8, ggufTypeInt8, ggufTypeUint16, ggufTypeInt16, ggufTypeUint32, ggufTypeInt32,
      ggufTypeUint64, ggufTypeInt64, ggufTypeFloat32, ggufTypeFloat64, ggufTypeBool, ggufTypeString,
      ggufTypeArray, encodeScalar,
      readU64_put llm v rest h]
  | int64 v =>
    have h : -(2 ^ 63) ≤ v ∧ v < 2 ^ 63 := by simpa [Scalar.wellFormed] using hwf
    simp [ggufModel.readElem, Scalar.tag, ggufTypeUint8, ggufTypeInt8, ggufTypeUint16, ggufTypeInt16, ggufTypeUint32, ggufTypeInt32,
      ggufTypeUint64, ggufTypeInt64, ggufTypeFloat32, ggufTypeFloat64, ggufTypeBool, ggufTypeString,
      ggufTypeArray, encodeScalar,
      readI64_put llm v rest h.1 h.2]
  | float32 v =>
    have h : v < 2 ^ 32 := by simpa [Scalar.wellFormed] using hwf
    simp [ggufModel.readElem, Scalar.tag, ggufTypeUint8, ggufTypeInt8, ggufTypeUint16, ggufTypeInt16, ggufTypeUint32, ggufTypeInt32,
      ggufTypeUint64, ggufTypeInt64, ggufTypeFloat32, ggufTypeFloat64, ggufTypeBool, ggufTypeString,
      ggufTypeArray, encodeScalar,
      readF32_put llm v rest h]
  | float64 v =>
    have h : v < 2 ^ 64 := by simpa [Scalar.wellFormed] using hwf
    simp [ggufModel.readElem, Scalar.tag, ggufTypeUint8, ggufTypeInt8, ggufTypeUint16, ggufTypeInt16, ggufTypeUint32, ggufTypeInt32,
      ggufTypeUint64, ggufTypeInt64, ggufTypeFloat32, ggufTypeFloat64, ggufTypeBool, ggufTypeString,
      ggufTypeArray, encodeScalar,
      readF64_put llm v rest h]
  | bool v =>
    simp only [ggufModel.readElem, Scalar.tag, ggufTypeUint8, ggufTypeInt8, ggufTypeUint16, ggufTypeInt16, ggufTypeUint32, ggufTypeInt32,
      ggufTypeUint64, ggufTypeInt64, ggufTypeFloat32, ggufTypeFloat64, ggufTypeBool, ggufTypeString,
      ggufTypeArray, encodeScalar,
      readBool_put llm v rest]
    simp
  | string v =>
    have h := readString_encode llm v rest (by simpa [Scalar.wellFormed] using hwf)
    simp [ggufModel.readElem, Scalar.tag, ggufTypeUint8, ggufTypeInt8, ggufTypeUint16, ggufTypeInt16, ggufTypeUint32, ggufTypeInt32,
      ggufTypeUint64, ggufTypeInt64, ggufTypeFloat32, ggufTypeFloat64, ggufTypeBool, ggufTypeString,
      ggufTypeArray, encodeScalar, h,
      Outcome.andThen]

theorem readValue_scalar (llm : ggufModel) (x : Scalar) (rest : Stream)
    (hwf : x.wellFormed (decide (llm.Version = 1)) = true) :
    llm.readValue x.tag (encodeScalar llm.bo (decide (llm.Version = 1)) x ++ rest) =
      (.ok (.scalar x), rest) := by
  cases x with
  | uint8 v =>
    have h : v < 2 ^ 8 := by simpa [Scalar.wellFormed] using hwf
    simp [ggufModel.readValue, Scalar.tag, ggufTypeUint8, ggufTypeInt8, ggufTypeUint16, ggufTypeInt16, ggufTypeUint32, ggufTypeInt32,
      ggufTypeUint64, ggufTypeInt64, ggufTypeFloat32, ggufTypeFloat64, ggufTypeBool, ggufTypeString,
      ggufTypeArray, encodeScalar,
      readU8_put llm v rest h]
  | int8 v =>
    have h : -(2 ^ 7) ≤ v ∧ v < 2 ^ 7 := by simpa [Scalar.wellFormed] using hwf
    simp [ggufModel.readValue, Scalar.tag, ggufTypeUint8, ggufTypeInt8, ggufTypeUint16, ggufTypeInt16, ggufTypeUint32, ggufTypeInt32,
      ggufTypeUint64, ggufTypeInt64, ggufTypeFloat32, ggufTypeFloat64, ggufTypeBool, ggufTypeString,
      ggufTypeArray, encodeScalar,
      readI8_put llm v rest h.1 h.2]
  | uint16 v =>
    have h : v < 2 ^ 16 := by simpa [Scalar.wellFormed] using hwf
    simp [ggufModel.readValue, Scalar.tag, ggufTypeUint8, ggufTypeInt8, ggufTypeUint16, ggufTypeInt16, ggufTypeUint32, ggufTypeInt32,
      ggufTypeUint64, ggufTypeInt64, ggufTypeFloat32, ggufTypeFloat64, ggufTypeBool, ggufTypeString,
      ggufTypeArray, encodeScalar,
      readU16_put llm v rest h]
  | int16 v =>
    have h : -(2 ^ 15) ≤ v ∧ v < 2 ^ 15 := by simpa [Scalar.wellFormed] using hwf
    simp [ggufModel.readValue, Scalar.tag, ggufTypeUint8, ggufTypeInt8, ggufTypeUint16, ggufTypeInt16, ggufTypeUint32, ggufTypeInt32,
      ggufTypeUint64, ggufTypeInt64, ggufTypeFloat32, ggufTypeFloat64, ggufTypeBool, ggufTypeString,
      ggufTypeArray, encodeScalar,
      readI16_put llm v rest h.1 h.2]
  | uint32 v =>
    have h : v < 2 ^ 32 := by simpa [Scalar.wellFormed] using hwf
    simp [ggufModel.readValue, Scalar.tag, ggufTypeUint8, ggufTypeInt8, ggufTypeUint16, ggufTypeInt16, ggufTypeUint32, ggufTypeInt32,
      ggufTypeUint64, ggufTypeInt64, ggufTypeFloat32, ggufTypeFloat64, ggufTypeBool, ggufTypeString,
      ggufTypeArray, encodeScalar,
      readU32_put llm v rest h]
  | int32 v =>
    have h : -(2 ^ 31) ≤ v ∧ v < 2 ^ 31 := by simpa [Scalar.wellFormed] using hwf
    simp [ggufModel.readValue, Scalar.tag, ggufTypeUint8, ggufTypeInt8, ggufTypeUint16, ggufTypeInt16, ggufTypeUint32, ggufTypeInt32,
      ggufTypeUint64, ggufTypeInt64, ggufTypeFloat32, ggufTypeFloat64, ggufTypeBool, ggufTypeString,
      ggufTypeArray, encodeScalar,
      readI32_put llm v rest h.1 h.2]
  | uint64 v =>
    have h : v < 2 ^ 64 := by simpa [Scalar.wellFormed] using hwf
    simp [ggufModel.readValue, Scalar.tag, ggufTypeUint8, ggufTypeInt8, ggufTypeUint16, ggufTypeInt16, ggufTypeUint32, ggufTypeInt32,
      ggufTypeUint64, ggufTypeInt64, ggufTypeFloat32, ggufTypeFloat64, ggufTypeBool, ggufTypeString,
      ggufTypeArray, encodeScalar,
      readU64_put llm v rest h]
  | int64 v =>
    have h : -(2 ^ 63) ≤ v ∧ v < 2 ^ 63 := by simpa [Scalar.wellFormed] using hwf
    simp [ggufModel.readValue, Scalar.tag, ggufTypeUint8, ggufTypeInt8, ggufTypeUint16, ggufTypeInt16, ggufTypeUint32, ggufTypeInt32,
      ggufTypeUint64, ggufTypeInt64, ggufTypeFloat32, ggufTypeFloat64, ggufTypeBool, ggufTypeString,
      ggufTypeArray, encodeScalar,
      readI64_put llm v rest h.1 h.2]
  | float32 v =>
    have h : v < 2 ^ 32 := by simpa [Scalar.wellFormed] using hwf
    simp [ggufModel.readValue, Scalar.tag, ggufTypeUint8, ggufTypeInt8, ggufTypeUint16, ggufTypeInt16, ggufTypeUint32, ggufTypeInt32,
      ggufTypeUint64, ggufTypeInt64, ggufTypeFloat32, ggufTypeFloat64, ggufTypeBool, ggufTypeString,
      ggufTypeArray, encodeScalar,
      readF32_put llm v rest h]
  | float64 v =>
    have h : v < 2 ^ 64 := by simpa [Scalar.wellFormed] using hwf
    simp [ggufModel.readValue, Scalar.tag, ggufTypeUint8, ggufTypeInt8, ggufTypeUint16, ggufTypeInt16, ggufTypeUint32, ggufTypeInt32,
      ggufTypeUint64, ggufTypeInt64, ggufTypeFloat32, ggufTypeFloat64, ggufTypeBool, ggufTypeString,
      ggufTypeArray, encodeScalar,
      readF64_put llm v rest h]
  | bool v =>
    simp only [ggufModel.readValue, Scalar.tag, ggufTypeUint8, ggufTypeInt8, ggufTypeUint16, ggufTypeInt16, ggufTypeUint32, ggufTypeInt32,
      ggufTypeUint64, ggufTypeInt64, ggufTypeFloat32, ggufTypeFloat64, ggufTypeBool, ggufTypeString,
      ggufTypeArray, encodeScalar,
      readBool_put llm v rest]
    simp
  | string v =>
    have h := readString_encode llm v rest (by simpa [Scalar.wellFormed] using hwf)
    simp [ggufModel.readValue, Scalar.tag, ggufTypeUint8, ggufTypeInt8, ggufTypeUint16, ggufTypeInt16, ggufTypeUint32, ggufTypeInt32,
      ggufTypeUint64, ggufTypeInt64, ggufTypeFloat32, ggufTypeFloat64, ggufTypeBool, ggufTypeString,
      ggufTypeArray, encodeScalar, h,
      Outcome.andThen]

theorem andThen_ok {α β : Type} (a : α) (r : Stream) (f : α → Stream → Outcome β × Stream) :
    Outcome.andThen (.ok a, r) f = f a r := rfl

theorem readArrayV1Loop_encode (llm : ggufModel) (atype : Nat) (hle : atype ≤ 8) :
    ∀ (xs arr : List Scalar) (rest : Stream),
      (∀ x ∈ xs, x.tag = atype ∧ x.wellFormed true = true) →
      llm.readArrayV1Loop atype xs.length arr (encodeScalars llm.bo true xs ++ rest) =
        (.ok (arr ++ xs), rest) := by
  intro xs
  induction xs with
  | nil => intro arr rest _; simp [ggufModel.readArrayV1Loop, encodeScalars]
  | cons x xs ih =>
    intro arr rest h
    have hx := h x (List.mem_cons_self x xs)
    have hr := readElemV1_encode llm x (encodeScalars llm.bo true xs ++ rest)
      (by rw [hx.1]; exact hle) hx.2
    rw [hx.1] at hr
    simp only [List.length_cons, ggufModel.readArrayV1Loop, encodeScalars, List.append_assoc, hr,
      andThen_ok]
    rw [ih (arr ++ [x]) rest (fun y hy => h y (List.mem_cons_of_mem x hy))]
    simp

theorem readArrayLoop_encode (llm : ggufModel) (atype : Nat) :
    ∀ (xs arr : List Scalar) (rest : Stream),
      (∀ x ∈ xs, x.tag = atype ∧ x.wellFormed (decide (llm.Version = 1)) = true) →
      llm.readArrayLoop atype xs.length arr
          (encodeScalars llm.bo (decide (llm.Version = 1)) xs ++ rest) =
        (.ok (arr ++ xs), rest) := by
  intro xs
  induction xs with
  | nil => intro arr rest _; simp [ggufModel.readArrayLoop, encodeScalars]
  | cons x xs ih =>
    intro arr rest h
    have hx := h x (List.mem_cons_self x xs)
    have hr := readElem_encode llm x
      (encodeScalars llm.bo (decide (llm.Version = 1)) xs ++ rest) hx.2
    rw [hx.1] at hr
    simp only [List.length_cons, ggufModel.readArrayLoop, encodeScalars, List.append_assoc, hr,
      andThen_ok]
    rw [ih (arr ++ [x]) rest (fun y hy => h y (List.mem_cons_of_mem x hy))]
    simp

theorem readArray_encode (llm : ggufModel) (atype : Nat) (xs : List Scalar) (rest : Stream)
    (hwf : (WireValue.array atype xs).wellFormed (decide (llm.Version = 1)) = true) :
    llm.readArray (encodeValue llm.bo (decide (llm.Version = 1)) (.array atype xs) ++ rest) =
      (.ok xs, rest) := by
  simp only [WireValue.wellFormed, Bool.and_eq_true, decide_eq_true_eq, List.all_eq_true] at hwf
  obtain ⟨⟨⟨h12, _, h8⟩, hlen⟩, hall⟩ := hwf
  have hat : atype < 2 ^ 32 := by
    have : (12 : Nat) < 2 ^ 32 := by norm_num
    omega
  unfold ggufModel.readArray
  by_cases hv : llm.Version = 1
  · simp only [hv, decide_True, countWidth, if_true] at h8 hlen hall ⊢
    have hlen32 : xs.length < 2 ^ 32 := by norm_num at hlen ⊢; exact hlen
    simp only [ggufModel.readArrayV1, encodeValue, countWidth, if_true, List.append_assoc,
      readU32_put llm atype _ hat, readU32_put llm xs.length _ hlen32]
    have := readArrayV1Loop_encode llm atype (h8 trivial) xs [] rest hall
    simpa using this
  · simp only [hv, decide_False, countWidth, if_false, Bool.false_eq_true] at hlen hall ⊢
    have hlen64 : xs.length < 2 ^ 64 := by norm_num at hlen ⊢; exact hlen
    simp only [encodeValue, countWidth, if_false, Bool.false_eq_true, List.append_assoc,
      readU32_put llm atype _ hat, readU64_put llm xs.length _ hlen64]
    have := readArrayLoop_encode llm atype xs [] rest (by simpa [hv] using hall)
    simpa [hv] using this

theorem readValue_encode (llm : ggufModel) (w : WireValue) (rest : Stream)
    (hwf : w.wellFormed (decide (llm.Version = 1)) = true) :
    llm.readValue w.tag (encodeValue llm.bo (decide (llm.Version = 1)) w ++ rest) =
      (.ok w.toValue, rest) := by
  cases w with
  | scalar x => exact readValue_scalar llm x rest hwf
  | array atype xs =>
    have h := readArray_encode llm atype xs rest hwf
    simp [ggufModel.readValue, WireValue.tag, WireValue.toValue, ggufTypeUint8, ggufTypeInt8,
      ggufTypeUint16, ggufTypeInt16, ggufTypeUint32, ggufTypeInt32, ggufTypeUint64,
      ggufTypeInt64, ggufTypeFloat32, ggufTypeFloat64, ggufTypeBool, ggufTypeString,
      ggufTypeArray, h, Outcome.andThen]

theorem WireValue.tag_lt (w : WireValue) : w.tag < 2 ^ 32 := by
  cases w with
  | scalar x =>
    cases x <;> simp [WireValue.tag, Scalar.tag, ggufTypeUint8, ggufTypeInt8,
      ggufTypeUint16, ggufTypeInt16, ggufTypeUint32, ggufTypeInt32, ggufTypeUint64,
      ggufTypeInt64, ggufTypeFloat32, ggufTypeFloat64, ggufTypeBool, ggufTypeString]
  | array atype xs => simp [WireValue.tag, ggufTypeArray]

theorem decodeKVs_encode :
    ∀ (es : List (List Byte × WireValue)) (llm : ggufModel) (rest : Stream),
      (∀ e ∈ es, kvWellFormed (decide (llm.Version = 1)) e = true) →
      ggufModel.decodeKVs es.length llm
          (encodeKVs llm.bo (decide (llm.Version = 1)) es ++ rest) =
        (.ok { llm with kv := insertAll llm.kv es }, rest) := by
  intro es
  induction es with
  | nil => intro llm rest _; simp [ggufModel.decodeKVs, encodeKVs, insertAll]
  | cons e es ih =>
    intro llm rest h
    have he := h e (List.mem_cons_self e es)
    simp only [kvWellFormed, Bool.and_eq_true] at he
    have hk := readString_encode llm e.1
      (llm.bo.put 4 e.2.tag ++ (encodeValue llm.bo (decide (llm.Version = 1)) e.2 ++
        (encodeKVs llm.bo (decide (llm.Version = 1)) es ++ rest))) he.1
    have hv := readValue_encode llm e.2
      (encodeKVs llm.bo (decide (llm.Version = 1)) es ++ rest) he.2
    simp only [List.length_cons, ggufModel.decodeKVs, encodeKVs, encodeKV, List.append_assoc, hk,
      andThen_ok, readU32_put llm e.2.tag _ (WireValue.tag_lt e.2), hv]
    have := ih { llm with kv := llm.kv.set e.1 e.2.toValue } rest
      (fun y hy => h y (List.mem_cons_of_mem e hy))
    simpa [insertAll] using this

theorem readExtents_encode (llm : ggufModel) :
    ∀ (ds : List Nat) (acc : Nat) (rest : Stream),
      (∀ d ∈ ds, d < 2 ^ 64) → acc < 2 ^ 64 →
      llm.readExtents ds.length acc (encodeExtents llm.bo ds ++ rest) =
        (acc * ds.foldr (fun d a => d * a) 1 % 2 ^ 64, rest) := by
  intro ds
  induction ds with
  | nil =>
    intro acc rest _ hacc
    simp only [List.length_nil, ggufModel.readExtents, encodeExtents, List.nil_append,
      List.foldr_nil, mul_one, Nat.mod_eq_of_lt hacc]
  | cons d ds ih =>
    intro acc rest h hacc
    have hd := h d (List.mem_cons_self d ds)
    simp only [List.length_cons, ggufModel.readExtents, encodeExtents, List.append_assoc,
      readU64_put llm d _ hd, List.foldr_cons]
    rw [ih (acc * d % 2 ^ 64) rest (fun y hy => h y (List.mem_cons_of_mem d hy))
      (Nat.mod_lt _ (by norm_num))]
    rw [Nat.mul_mod (acc * d % 2 ^ 64), Nat.mod_mod, ← Nat.mul_mod, mul_assoc]

theorem decodeTensors_encode :
    ∀ (ts : List TensorInfo) (llm : ggufModel) (rest : Stream),
      (∀ t ∈ ts, t.wellFormed (decide (llm.Version = 1)) = true) →
      llm.parameters < 2 ^ 64 →
      ggufModel.decodeTensors ts.length llm
          (encodeTensors llm.bo (decide (llm.Version = 1)) ts ++ rest) =
        (.ok { llm with parameters := (llm.parameters + totalElements ts) % 2 ^ 64 }, rest) := by
  intro ts
  induction ts with
  | nil =>
    intro llm rest _ hp
    simp only [List.length_nil, ggufModel.decodeTensors, encodeTensors, List.nil_append,
      totalElements, add_zero, Nat.mod_eq_of_lt hp]
  | cons t ts ih =>
    intro llm rest h hp
    have ht := h t (List.mem_cons_self t ts)
    simp only [TensorInfo.wellFormed, Bool.and_eq_true, decide_eq_true_eq,
      List.all_eq_true] at ht
    obtain ⟨⟨⟨⟨hname, hdims⟩, hext⟩, hkind⟩, hoff⟩ := ht
    have hk := readString_encode llm t.name
      (llm.bo.put 4 t.extents.length ++ (encodeExtents llm.bo t.extents ++
        (llm.bo.put 4 t.kind ++ (llm.bo.put 8 t.offset ++
          (encodeTensors llm.bo (decide (llm.Version = 1)) ts ++ rest))))) hname
    have hx := readExtents_encode llm t.extents 1
      (llm.bo.put 4 t.kind ++ (llm.bo.put 8 t.offset ++
          (encodeTensors llm.bo (decide (llm.Version = 1)) ts ++ rest))) hext (by norm_num)
    simp only [List.length_cons, ggufModel.decodeTensors, encodeTensors, encodeTensor,
      List.append_assoc, hk, andThen_ok, readU32_put llm t.extents.length _ hdims, hx,
      readU32_put llm t.kind _ hkind, readU64_put llm t.offset _ hoff]
    have := ih { llm with
        parameters := (llm.parameters + 1 * t.extents.foldr (fun d a => d * a) 1 % 2 ^ 64) % 2 ^ 64 }
      rest (fun y hy => h y (List.mem_cons_of_mem t hy)) (Nat.mod_lt _ (by norm_num))
    simp only [] at this
    rw [this]
    have harith : ((llm.parameters + 1 * t.extents.foldr (fun d a => d * a) 1 % 2 ^ 64) % 2 ^ 64 +
        totalElements ts) % 2 ^ 64 = (llm.parameters + totalElements (t :: ts)) % 2 ^ 64 := by
      simp only [totalElements, TensorInfo.elements, one_mul]
      generalize t.extents.foldr (fun d a => d * a) 1 = e
      generalize totalElements ts = q
      norm_num
      omega
    rw [harith]

/-- The container after the header of body `b` has been read into `c`. -/
theorem readHeader_encode (c : containerGGUF) (b : Body) (rest : Stream)
    (hv : b.version < 2 ^ 32)
    (hk : b.kvs.length < 2 ^ (8 * countWidth b.v1))
    (ht : b.tensors.length < 2 ^ (8 * countWidth b.v1)) :
    c.readHeader (c.bo.put 4 b.version ++ c.bo.put (countWidth b.v1) b.tensors.length ++
        c.bo.put (countWidth b.v1) b.kvs.length ++ rest) =
      ({ c with
          Version := b.version
          V1 := if b.version = 1 then ⟨b.tensors.length, b.kvs.length⟩ else c.V1
          V2 := if b.version = 1 then c.V2 else ⟨b.tensors.length, b.kvs.length⟩ }, rest) := by
  have hv4 : b.version % 256 ^ 4 = b.version := Nat.mod_eq_of_lt (by norm_num at hv ⊢; exact hv)
  unfold containerGGUF.readHeader
  simp only [List.append_assoc, binaryRead_put, Option.getD_some, hv4]
  by_cases h1 : b.version = 1
  · simp only [h1, Body.v1, decide_True, countWidth, if_true] at hk ht ⊢
    have hr := ReadFull_append (c.bo.put 4 b.tensors.length ++ c.bo.put 4 b.kvs.length) rest
    simp only [List.length_append, put_length, List.append_assoc] at hr
    rw [hr]
    have e1 : b.tensors.length % 256 ^ 4 = b.tensors.length :=
      Nat.mod_eq_of_lt (by norm_num at ht ⊢; exact ht)
    have e2 : b.kvs.length % 256 ^ 4 = b.kvs.length :=
      Nat.mod_eq_of_lt (by norm_num at hk ⊢; exact hk)
    simp [List.take_append_of_le_length, List.drop_append_of_le_length, put_length, Uint_put,
      e1, e2]
    norm_num at hk ht
    exact ⟨ht, hk⟩
  · simp only [h1, Body.v1, decide_False, countWidth, if_false, Bool.false_eq_true] at hk ht ⊢
    have hr := ReadFull_append (c.bo.put 8 b.tensors.length ++ c.bo.put 8 b.kvs.length) rest
    simp only [List.length_append, put_length, List.append_assoc] at hr
    rw [hr]
    have e1 : b.tensors.length % 256 ^ 8 = b.tensors.length :=
      Nat.mod_eq_of_lt (by norm_num at ht ⊢; exact ht)
    have e2 : b.kvs.length % 256 ^ 8 = b.kvs.length :=
      Nat.mod_eq_of_lt (by norm_num at hk ⊢; exact hk)
    simp [List.take_append_of_le_length, List.drop_append_of_le_length, put_length, Uint_put,
      e1, e2]
    norm_num at hk ht
    exact ⟨ht, hk⟩

/-- Decoding a well-formed body: the container holds the version and the counts, the dictionary
is built by assigning the entries in order, the parameter total grows by the element counts. -/
theorem containerGGUF_Decode_encode (c : containerGGUF) (b : Body) (rest : Stream)
    (hwf : b.wellFormed = true) (hp : c.parameters < 2 ^ 64) :
    c.Decode (encodeBody c.bo b ++ rest) =
      (.ok { bo := c.bo
             Version := b.version
             V1 := if b.version = 1 then ⟨b.tensors.length, b.kvs.length⟩ else c.V1
             V2 := if b.version = 1 then c.V2 else ⟨b.tensors.length, b.kvs.length⟩
             parameters := (c.parameters + totalElements b.tensors) % 2 ^ 64
             kv := insertAll [] b.kvs }, rest) := by
  simp only [Body.wellFormed, Bool.and_eq_true, decide_eq_true_eq, List.all_eq_true] at hwf
  obtain ⟨⟨⟨⟨hv, hk⟩, ht⟩, hkvs⟩, hts⟩ := hwf
  have hh := readHeader_encode c b
    (encodeKVs c.bo b.v1 b.kvs ++ (encodeTensors c.bo b.v1 b.tensors ++ rest)) hv hk ht
  unfold containerGGUF.Decode encodeBody
  simp only [List.append_assoc] at hh ⊢
  rw [hh]
  unfold ggufModel.Decode
  have hnk : (newGGUFModel { c with
      Version := b.version
      V1 := if b.version = 1 then ⟨b.tensors.length, b.kvs.length⟩ else c.V1
      V2 := if b.version = 1 then c.V2 else ⟨b.tensors.length, b.kvs.length⟩ }).NumKV
      = b.kvs.length := by
    unfold ggufModel.NumKV newGGUFModel
    by_cases h1 : b.version = 1 <;> simp [h1]
  rw [hnk]
  have hkv := decodeKVs_encode b.kvs (newGGUFModel { c with
      Version := b.version
      V1 := if b.version = 1 then ⟨b.tensors.length, b.kvs.length⟩ else c.V1
      V2 := if b.version = 1 then c.V2 else ⟨b.tensors.length, b.kvs.length⟩ })
    (encodeTensors c.bo b.v1 b.tensors ++ rest) (by simpa [newGGUFModel, Body.v1] using hkvs)
  simp only [newGGUFModel, Body.v1] at hkv ⊢
  rw [hkv, andThen_ok]
  have hnt : ggufModel.NumTensor
      { bo := c.bo, Version := b.version
        V1 := if b.version = 1 then ⟨b.tensors.length, b.kvs.length⟩ else c.V1
        V2 := if b.version = 1 then c.V2 else ⟨b.tensors.length, b.kvs.length⟩
        parameters := c.parameters, kv := insertAll [] b.kvs } = b.tensors.length := by
    unfold ggufModel.NumTensor
    by_cases h1 : b.version = 1 <;> simp [h1]
  rw [hnt]
  have htn := decodeTensors_encode b.tensors
      { bo := c.bo, Version := b.version
        V1 := if b.version = 1 then ⟨b.tensors.length, b.kvs.length⟩ else c.V1
        V2 := if b.version = 1 then c.V2 else ⟨b.tensors.length, b.kvs.length⟩
        parameters := c.parameters, kv := insertAll [] b.kvs }
      rest (by simpa [Body.v1] using hts) hp
  simp only [] at htn
  rw [htn]

/-! ## The dictionary -/

theorem kv_get_del_ne (k k1 : List Byte) (h : k ≠ k1) :
    ∀ m : kv, kv.get (m.del k) k1 = kv.get m k1 := by
  intro m
  induction m with
  | nil => rfl
  | cons p m ih =>
    obtain ⟨kp, vp⟩ := p
    by_cases hp : kp = k
    · have hq : kp ≠ k1 := by rw [hp]; exact h
      simp only [kv.del, kv.get, hp, if_true, ih]
      rw [if_neg h]
    · by_cases hq : kp = k1
      · subst hq
        simp only [kv.del, kv.get, hp, if_false, if_true]
      · simp only [kv.del, kv.get, hp, hq, if_false, ih]

theorem kv_get_set (m : kv) (k k1 : List Byte) (v : Value) :
    (m.set k v).get k1 = if k = k1 then some v else m.get k1 := by
  unfold kv.set
  by_cases h : k = k1
  · simp [kv.get, h]
  · simp only [kv.get, h, if_false]
    exact kv_get_del_ne k k1 h m

theorem insertAll_append (es1 : List (List Byte × WireValue)) :
    ∀ (m : kv) (es2 : List (List Byte × WireValue)),
      insertAll m (es1 ++ es2) = insertAll (insertAll m es1) es2 := by
  induction es1 with
  | nil => intro m es2; rfl
  | cons e es1 ih => intro m es2; simp [insertAll, ih]

theorem kv_get_insertAll_of_not_mem (k : List Byte) (es : List (List Byte × WireValue)) :
    ∀ m : kv, (∀ e ∈ es, e.1 ≠ k) → (insertAll m es).get k = m.get k := by
  induction es with
  | nil => intro m _; rfl
  | cons e es ih =>
    intro m h
    simp only [insertAll]
    rw [ih _ (fun y hy => h y (List.mem_cons_of_mem e hy)), kv_get_set,
      if_neg (h e (List.mem_cons_self e es))]

/-- The last entry that carries a key decides the value of the key. -/
theorem kv_get_insertAll_last (m : kv) (es1 es2 : List (List Byte × WireValue))
    (e : List Byte × WireValue) (h : ∀ y ∈ es2, y.1 ≠ e.1) :
    (insertAll m (es1 ++ e :: es2)).get e.1 = some e.2.toValue := by
  rw [insertAll_append]
  simp only [insertAll]
  rw [kv_get_insertAll_of_not_mem e.1 es2 _ h, kv_get_set, if_pos rfl]

/-! ## Splitting the key-value loop -/

theorem decodeKVs_add (j : Nat) :
    ∀ (n : Nat) (llm : ggufModel) (r : Stream),
      ggufModel.decodeKVs (j + n) llm r =
        Outcome.andThen (ggufModel.decodeKVs j llm r) fun l r1 => ggufModel.decodeKVs n l r1 := by
  induction j with
  | zero => intro n llm r; simp [ggufModel.decodeKVs, andThen_ok]
  | succ j ih =>
    intro n llm r
    rw [show j + 1 + n = (j + n) + 1 by omega]
    simp only [ggufModel.decodeKVs]
    rcases hk : llm.readString r with ⟨ok, r1⟩
    cases ok with
    | ok k =>
      simp only [andThen_ok]
      rcases hv : llm.readValue (llm.readU32 r1).1 (llm.readU32 r1).2 with ⟨ov, r2⟩
      cases ov with
      | ok v => simp only [andThen_ok]; exact ih n _ r2
      | err e => rfl
      | panic => rfl
    | err e => rfl
    | panic => rfl

theorem leUint_lt (bs : List Byte) : leUint bs < 256 ^ bs.length := by
  induction bs with
  | nil => simp [leUint]
  | cons b bs ih =>
    simp only [leUint, List.length_cons, pow_succ]
    have := b.isLt
    omega

theorem Uint_lt (bo : ByteOrder) (bs : List Byte) : bo.Uint bs < 256 ^ bs.length := by
  cases bo
  · exact leUint_lt bs
  · have := leUint_lt bs.reverse
    simpa [ByteOrder.Uint] using this

/-! ## The dispatcher -/

/-- C1: a stream whose first four bytes are, read little-endian, one of the three legacy magics
`0x67676d6c`, `0x67676d66`, `0x67676a74` makes `DecodeGGML` return no result and the error
`ErrUnsupportedFormat`, and the reader is left right after the magic: nothing of what follows
has been read. -/
theorem DecodeGGML_legacy_unsupported (mb : List Byte) (rest : Stream) (hlen : mb.length = 4)
    (hm : leUint mb = 0x67676d6c ∨ leUint mb = 0x67676d66 ∨ leUint mb = 0x67676a74) :
    DecodeGGML (mb ++ rest) = (.err ErrUnsupportedFormat, rest) ∧
      ErrUnsupportedFormat.Error = "unsupported model format" := by
  refine ⟨?_, rfl⟩
  unfold DecodeGGML
  simp only [DecodeGGML_magic mb rest hlen, Option.getD_some]
  rw [if_pos (by simpa [FILE_MAGIC_GGML, FILE_MAGIC_GGMF, FILE_MAGIC_GGJT] using hm)]

theorem DecodeGGML_legacy_unsupported_witness :
    ([0x66, 0x6d, 0x67, 0x67] : List Byte).length = 4 ∧
    leUint [0x66, 0x6d, 0x67, 0x67] = 0x67676d66 ∧
    DecodeGGML ([0x66, 0x6d, 0x67, 0x67] ++ [1, 0, 0, 0, 9]) =
      (.err ErrUnsupportedFormat, [1, 0, 0, 0, 9]) :=
  ⟨by decide, by decide,
    (DecodeGGML_legacy_unsupported [0x66, 0x6d, 0x67, 0x67] [1, 0, 0, 0, 9] (by decide)
      (Or.inr (Or.inl (by decide)))).1⟩

/-- C2: for the 32-bit magic `m` read from the first four bytes, `DecodeGGML` fails with the
error "invalid file magic" exactly when `m` is none of the six known constants; so for each of
the six, whatever follows in the stream, that error is not the one returned. -/
theorem DecodeGGML_invalid_magic_iff (mb : List Byte) (rest : Stream) (hlen : mb.length = 4) :
    (DecodeGGML (mb ++ rest)).1 = .err .invalidFileMagic ↔
      (leUint mb ≠ 0x67676d6c ∧ leUint mb ≠ 0x67676d66 ∧ leUint mb ≠ 0x67676a74 ∧
        leUint mb ≠ 0x67676C61 ∧ leUint mb ≠ 0x46554747 ∧ leUint mb ≠ 0x47475546) := by
  unfold DecodeGGML
  simp only [DecodeGGML_magic mb rest hlen, Option.getD_some, FILE_MAGIC_GGML, FILE_MAGIC_GGMF,
    FILE_MAGIC_GGJT, FILE_MAGIC_GGLA, FILE_MAGIC_GGUF_LE, FILE_MAGIC_GGUF_BE]
  generalize leUint mb = m
  by_cases h1 : m = 0x67676d6c ∨ m = 0x67676d66 ∨ m = 0x67676a74
  · rw [if_pos h1]
    constructor
    · intro h
      simp [ErrUnsupportedFormat] at h
    · intro h
      omega
  · rw [if_neg h1]
    by_cases h2 : m = 0x67676C61
    · rw [if_pos h2]
      constructor
      · intro h
        exact absurd h (andThen_ne _ _ _ (containerLORA_Decode_ne_magic _ rest)
          (fun a r => ok_ne_err _ _ _))
      · intro h
        omega
    · rw [if_neg h2]
      by_cases h3 : m = 0x46554747
      · rw [if_pos h3]
        constructor
        · intro h
          exact absurd h (andThen_ne _ _ _ (containerGGUF_Decode_ne_magic _ rest)
            (fun a r => ok_ne_err _ _ _))
        · intro h
          omega
      · rw [if_neg h3]
        by_cases h4 : m = 0x47475546
        · rw [if_pos h4]
          constructor
          · intro h
            exact absurd h (andThen_ne _ _ _ (containerGGUF_Decode_ne_magic _ rest)
              (fun a r => ok_ne_err _ _ _))
          · intro h
            omega
        · rw [if_neg h4]
          constructor
          · intro _
            omega
          · intro _
            rfl

theorem DecodeGGML_invalid_magic_iff_witness :
    ([0x47, 0x47, 0x4d, 0x4c] : List Byte).length = 4 ∧
    ((DecodeGGML ([0x47, 0x47, 0x4d, 0x4c] ++ [3, 0, 0, 0])).1 = .err .invalidFileMagic ↔
      (leUint [0x47, 0x47, 0x4d, 0x4c] ≠ 0x67676d6c ∧ leUint [0x47, 0x47, 0x4d, 0x4c] ≠ 0x67676d66 ∧
        leUint [0x47, 0x47, 0x4d, 0x4c] ≠ 0x67676a74 ∧ leUint [0x47, 0x47, 0x4d, 0x4c] ≠ 0x67676C61 ∧
        leUint [0x47, 0x47, 0x4d, 0x4c] ≠ 0x46554747 ∧ leUint [0x47, 0x47, 0x4d, 0x4c] ≠ 0x47475546)) :=
  ⟨by decide, DecodeGGML_invalid_magic_iff [0x47, 0x47, 0x4d, 0x4c] [3, 0, 0, 0] (by decide)⟩

/-- What `DecodeGGML` returns on a stream that starts with the LoRA magic. -/
theorem lora_closed_form (mb : List Byte) (rest : Stream) (hlen : mb.length = 4)
    (hm : leUint mb = 0x67676C61) :
    DecodeGGML (mb ++ rest) =
      if 4 ≤ rest.length ∧ leUint (rest.take 4) = 1 then
        (.ok { magic := 0x67676C61, container := .LORA { version := 1 }, model := none },
          rest.drop 4)
      else (.err .invalidVersion, rest.drop 4) := by
  unfold DecodeGGML
  simp only [DecodeGGML_magic mb rest hlen, Option.getD_some, FILE_MAGIC_GGML, FILE_MAGIC_GGMF,
    FILE_MAGIC_GGJT, FILE_MAGIC_GGLA, hm]
  rw [if_neg (by norm_num), if_pos trivial]
  unfold containerLORA.Decode
  by_cases h4 : 4 ≤ rest.length
  · simp only [binaryRead_full _ 4 rest h4, Option.getD_some, ByteOrder.Uint, h4, true_and]
    by_cases h1 : leUint (rest.take 4) = 1
    · simp only [h1, if_true, andThen_ok]
    · simp only [h1, if_false, Outcome.andThen]
  · have hs : rest.length < 4 := by omega
    have hd : rest.drop 4 = [] := List.drop_eq_nil_of_le (by omega)
    simp only [binaryRead_short _ 4 rest hs, Option.getD_none, h4, false_and, if_false, hd]
    rw [if_neg (by norm_num)]
    rfl

/-- C4: on a stream that starts with the LoRA magic `0x67676C61`, `DecodeGGML` succeeds exactly
when the next four bytes are present and equal 1 read little-endian.  On success the result has
container name "ggla", stored version 1 and no model; for every other version value, also the
0 left by a stream that ends before the version field, it returns no result and the error
"invalid version". -/
theorem DecodeGGML_lora (mb : List Byte) (rest : Stream) (hlen : mb.length = 4)
    (hm : leUint mb = 0x67676C61) :
    ((∃ g, (DecodeGGML (mb ++ rest)).1 = .ok g) ↔
        (4 ≤ rest.length ∧ leUint (rest.take 4) = 1)) ∧
      (∀ g, (DecodeGGML (mb ++ rest)).1 = .ok g →
        g.container.Name = "ggla" ∧ g.container = .LORA { version := 1 } ∧ g.model = none) ∧
      (¬ (4 ≤ rest.length ∧ leUint (rest.take 4) = 1) →
        (DecodeGGML (mb ++ rest)).1 = .err .invalidVersion) ∧
      GoError.invalidVersion.Error = "invalid version" := by
  have h := lora_closed_form mb rest hlen hm
  by_cases hc : 4 ≤ rest.length ∧ leUint (rest.take 4) = 1
  · rw [if_pos hc] at h
    rw [h]
    refine ⟨⟨fun _ => hc, fun _ => ⟨_, rfl⟩⟩, ?_, fun hn => absurd hc hn, rfl⟩
    intro g hg
    have hg1 : g = { magic := 0x67676C61, container := .LORA { version := 1 }, model := none } := by
      simpa using hg.symm
    subst hg1
    exact ⟨rfl, rfl, rfl⟩
  · rw [if_neg hc] at h
    rw [h]
    refine ⟨⟨fun ⟨g, hg⟩ => ?_, fun hp => absurd hp hc⟩, ?_, fun _ => rfl, rfl⟩
    · simp at hg
    · intro g hg
      simp at hg

theorem DecodeGGML_lora_witness :
    ([0x61, 0x6c, 0x67, 0x67] : List Byte).length = 4 ∧
    leUint [0x61, 0x6c, 0x67, 0x67] = 0x67676C61 ∧
    (DecodeGGML ([0x61, 0x6c, 0x67, 0x67] ++ [2, 0, 0, 0, 5])).1 = .err .invalidVersion :=
  ⟨by decide, by decide,
    (DecodeGGML_lora [0x61, 0x6c, 0x67, 0x67] [2, 0, 0, 0, 5] (by decide) (by decide)).2.2.1
      (by decide)⟩

/-! ## Strings under version 1 -/

/-- C6: under GGUF version 1, a 32-bit length field `n ≥ 1` followed by at least `n` bytes
makes `readString` return the first `n - 1` of those bytes (the last one is stripped, so the
result has length `n - 1`) and consume exactly `4 + n` bytes; the length 6 followed by the
bytes of "llama" and a zero byte decodes to "llama". -/
theorem readString_v1 (llm : ggufModel) (n : Nat) (p : List Byte)
    (hv : llm.Version = 1) (h1 : 1 ≤ n) (h32 : n < 2 ^ 32) (hp : n ≤ p.length) :
    llm.readString (llm.bo.put 4 n ++ p) = (.ok (p.take (n - 1)), p.drop n) ∧
      (p.take (n - 1)).length = n - 1 ∧
      (llm.bo.put 4 n ++ p).length = (4 + n) + (p.drop n).length ∧
      ∀ rest : Stream,
        llm.readString (llm.bo.put 4 6 ++ (asciiBytes "llama" ++ [0] ++ rest)) =
          (.ok (asciiBytes "llama"), rest) := by
  have key : ∀ (k : Nat) (q : List Byte), 1 ≤ k → k < 2 ^ 32 → k ≤ q.length →
      llm.readString (llm.bo.put 4 k ++ q) = (.ok (q.take (k - 1)), q.drop k) := by
    intro k q hk1 hk32 hkq
    have hlt : k < 256 ^ 4 := by norm_num at hk32 ⊢; exact hk32
    unfold ggufModel.readString
    rw [if_pos hv]
    unfold ggufModel.readStringV1 CopyN
    simp only [readBits_put llm 4 k q hlt, Int.toNat_ofNat]
    rw [if_neg (by omega), if_pos hkq]
    simp only [List.length_take, Nat.min_eq_left hkq]
    rw [if_neg (by omega), List.take_take, Nat.min_eq_left (by omega)]
  refine ⟨key n p h1 h32 hp, ?_, ?_, ?_⟩
  · rw [List.length_take]
    omega
  · simp only [List.length_append, put_length, List.length_drop]
    omega
  · intro rest
    have h := key 6 (asciiBytes "llama" ++ [0] ++ rest) (by norm_num) (by norm_num)
      (by simp [asciiBytes])
    rw [h]
    simp [asciiBytes]

theorem readString_v1_witness :
    (newGGUFModel { emptyGGUF .BigEndian with Version := 1 }).Version = 1 ∧
    1 ≤ 3 ∧ 3 < 2 ^ 32 ∧ 3 ≤ ([104, 105, 33, 7, 7] : List Byte).length ∧
    (newGGUFModel { emptyGGUF .BigEndian with Version := 1 }).readString
        ([0, 0, 0, 3] ++ [104, 105, 33, 7, 7]) = (.ok [104, 105], [7, 7]) :=
  ⟨rfl, by decide, by norm_num, by decide,
    (readString_v1 (newGGUFModel { emptyGGUF .BigEndian with Version := 1 }) 3
      [104, 105, 33, 7, 7] rfl (by decide) (by norm_num) (by decide)).1⟩

/-! ## The count header -/

theorem ReadFull_full (n : Nat) (r : Stream) (h : n ≤ r.length) :
    ReadFull n r = (.ok (r.take n), r.drop n) := by
  unfold ReadFull
  rw [if_pos h]

theorem ReadFull_short (n : Nat) (r : Stream) (h : r.length < n) :
    ∃ e, ReadFull n r = (.error e, []) := by
  unfold ReadFull
  rw [if_neg (by omega)]
  split_ifs
  · exact ⟨_, rfl⟩
  · exact ⟨_, rfl⟩

/-- The header of a stream that holds a version field, in closed form. -/
theorem readHeader_eq (c : containerGGUF) (r : Stream) (h4 : 4 ≤ r.length) :
    c.readHeader r =
      if c.bo.Uint (r.take 4) = 1 then
        if 4 + 8 ≤ r.length then
          ({ c with
              Version := 1
              V1 := ⟨c.bo.Uint ((r.drop 4).take 4), c.bo.Uint ((r.drop 8).take 4)⟩ },
            r.drop (4 + 8))
        else ({ c with Version := 1 }, [])
      else
        if 4 + 16 ≤ r.length then
          ({ c with
              Version := c.bo.Uint (r.take 4)
              V2 := ⟨c.bo.Uint ((r.drop 4).take 8), c.bo.Uint ((r.drop 12).take 8)⟩ },
            r.drop (4 + 16))
        else ({ c with Version := c.bo.Uint (r.take 4) }, []) := by
  unfold containerGGUF.readHeader
  simp only [binaryRead_full _ 4 r h4, Option.getD_some]
  by_cases hv : c.bo.Uint (r.take 4) = 1
  · simp only [hv, if_true]
    by_cases h12 : 4 + 8 ≤ r.length
    · have h8 : 8 ≤ (r.drop 4).length := by rw [List.length_drop]; omega
      have e1 : List.take 4 (List.take 8 (List.drop 4 r)) = List.take 4 (List.drop 4 r) := by
        rw [List.take_take]
        rfl
      have e2 : List.drop 4 (List.take 8 (List.drop 4 r)) = List.take 4 (List.drop 8 r) := by
        rw [List.drop_take, List.drop_drop]
      simp only [ReadFull_full 8 _ h8, h12, if_true, e1, e2, List.drop_drop]
    · have h8 : (r.drop 4).length < 8 := by rw [List.length_drop]; omega
      obtain ⟨e, he⟩ := ReadFull_short 8 _ h8
      simp only [he, h12, if_false]
  · simp only [hv, if_false]
    by_cases h20 : 4 + 16 ≤ r.length
    · have h16 : 16 ≤ (r.drop 4).length := by rw [List.length_drop]; omega
      have e1 : List.take 8 (List.take 16 (List.drop 4 r)) = List.take 8 (List.drop 4 r) := by
        rw [List.take_take]
        rfl
      have e2 : List.drop 8 (List.take 16 (List.drop 4 r)) = List.take 8 (List.drop 12 r) := by
        rw [List.drop_take, List.drop_drop]
      simp only [ReadFull_full 16 _ h16, h20, if_true, e1, e2, List.drop_drop]
    · have h16 : (r.drop 4).length < 16 := by rw [List.length_drop]; omega
      obtain ⟨e, he⟩ := ReadFull_short 16 _ h16
      simp only [he, h20, if_false]

/-- C5: the version field alone decides the width of the count header.  When the 32-bit
version is 1 the decoder requests 8 bytes and, when they are there, `NumTensor` and `NumKV`
are the two 32-bit counts in that order (both below `2 ^ 32`); for every other version it
requests 16 bytes and they are the two 64-bit counts in that order.  On a well-formed stream
of either shape the two loops then read exactly the announced entries and descriptors: the
decoder stops right behind them, with every entry assigned and every descriptor counted. -/
theorem readHeader_counts (c : containerGGUF) (r : Stream) (h4 : 4 ≤ r.length) :
    (c.bo.Uint (r.take 4) = 1 →
      (c.readHeader r).1.Version = 1 ∧ (c.readHeader r).2 = r.drop (4 + 8) ∧
      (4 + 8 ≤ r.length →
        (newGGUFModel (c.readHeader r).1).NumTensor = c.bo.Uint ((r.drop 4).take 4) ∧
        (newGGUFModel (c.readHeader r).1).NumKV = c.bo.Uint ((r.drop 8).take 4) ∧
        (newGGUFModel (c.readHeader r).1).NumTensor < 2 ^ 32 ∧
        (newGGUFModel (c.readHeader r).1).NumKV < 2 ^ 32)) ∧
    (c.bo.Uint (r.take 4) ≠ 1 →
      (c.readHeader r).1.Version = c.bo.Uint (r.take 4) ∧
      (c.readHeader r).2 = r.drop (4 + 16) ∧
      (4 + 16 ≤ r.length →
        (newGGUFModel (c.readHeader r).1).NumTensor = c.bo.Uint ((r.drop 4).take 8) ∧
        (newGGUFModel (c.readHeader r).1).NumKV = c.bo.Uint ((r.drop 12).take 8))) ∧
    (∀ (b : Body) (rest : Stream), b.wellFormed = true →
      ∃ m, (emptyGGUF c.bo).Decode (encodeBody c.bo b ++ rest) = (.ok m, rest) ∧
        m.Version = b.version ∧ m.NumKV = b.kvs.length ∧ m.NumTensor = b.tensors.length ∧
        m.kv = insertAll [] b.kvs ∧ m.parameters = totalElements b.tensors % 2 ^ 64) := by
  have hh := readHeader_eq c r h4
  refine ⟨?_, ?_, ?_⟩
  · intro hv
    rw [if_pos hv] at hh
    by_cases h12 : 4 + 8 ≤ r.length
    · rw [if_pos h12] at hh
      rw [hh]
      refine ⟨rfl, rfl, fun _ => ?_⟩
      simp only [ggufModel.NumTensor, ggufModel.NumKV, newGGUFModel, if_true]
      refine ⟨trivial, trivial, ?_, ?_⟩
      · have := Uint_lt c.bo (List.take 4 (List.drop 4 r))
        rw [List.length_take, List.length_drop, Nat.min_eq_left (by omega)] at this
        norm_num at this ⊢
        exact this
      · have := Uint_lt c.bo (List.take 4 (List.drop 8 r))
        rw [List.length_take, List.length_drop, Nat.min_eq_left (by omega)] at this
        norm_num at this ⊢
        exact this
    · rw [if_neg h12] at hh
      rw [hh]
      exact ⟨rfl, (List.drop_eq_nil_of_le (by omega)).symm, fun h => absurd h h12⟩
  · intro hv
    rw [if_neg hv] at hh
    by_cases h20 : 4 + 16 ≤ r.length
    · rw [if_pos h20] at hh
      rw [hh]
      refine ⟨rfl, rfl, fun _ => ?_⟩
      simp only [ggufModel.NumTensor, ggufModel.NumKV, newGGUFModel, hv, if_false]
      exact ⟨trivial, trivial⟩
    · rw [if_neg h20] at hh
      rw [hh]
      exact ⟨rfl, (List.drop_eq_nil_of_le (by omega)).symm, fun h => absurd h h20⟩
  · intro b rest hwf
    have h := containerGGUF_Decode_encode (emptyGGUF c.bo) b rest hwf (by norm_num [emptyGGUF])
    refine ⟨_, h, rfl, ?_, ?_, rfl, ?_⟩
    · unfold ggufModel.NumKV
      by_cases h1 : b.version = 1 <;> simp [h1]
    · unfold ggufModel.NumTensor
      by_cases h1 : b.version = 1 <;> simp [h1]
    · simp [emptyGGUF]

theorem readHeader_counts_witness :
    4 ≤ ([1, 0, 0, 0, 2, 0, 0, 0, 3, 0, 0, 0, 9] : Stream).length ∧
    ((emptyGGUF .LittleEndian).readHeader [1, 0, 0, 0, 2, 0, 0, 0, 3, 0, 0, 0, 9]).2 =
      ([1, 0, 0, 0, 2, 0, 0, 0, 3, 0, 0, 0, 9] : Stream).drop (4 + 8) :=
  ⟨by decide,
    ((readHeader_counts (emptyGGUF .LittleEndian) [1, 0, 0, 0, 2, 0, 0, 0, 3, 0, 0, 0, 9]
      (by decide)).1 (by decide)).2.1⟩

/-! ## Decoding a well-formed file -/

theorem emptyGGUF_Decode_encode (bo : ByteOrder) (b : Body) (rest : Stream)
    (hwf : b.wellFormed = true) :
    (emptyGGUF bo).Decode (encodeBody bo b ++ rest) = (.ok (b.model bo), rest) := by
  have h := containerGGUF_Decode_encode (emptyGGUF bo) b rest hwf (by norm_num [emptyGGUF])
  simpa [emptyGGUF, Body.model] using h

theorem Body.model_NumKV (b : Body) (bo : ByteOrder) : (b.model bo).NumKV = b.kvs.length := by
  unfold ggufModel.NumKV Body.model
  by_cases h1 : b.version = 1 <;> simp [h1]

theorem Body.model_NumTensor (b : Body) (bo : ByteOrder) :
    (b.model bo).NumTensor = b.tensors.length := by
  unfold ggufModel.NumTensor Body.model
  by_cases h1 : b.version = 1 <;> simp [h1]

theorem DecodeGGML_encode (bo : ByteOrder) (b : Body) (rest : Stream)
    (hwf : b.wellFormed = true) :
    DecodeGGML (putLE 4 (ggufMagic bo) ++ (encodeBody bo b ++ rest)) =
      (.ok { magic := ggufMagic bo, container := .GGUF (b.model bo).tocontainerGGUF,
             model := some (b.model bo) }, rest) := by
  have hm := binaryRead_put .LittleEndian 4 (ggufMagic bo) (encodeBody bo b ++ rest)
  have hd := emptyGGUF_Decode_encode bo b rest hwf
  unfold DecodeGGML
  cases bo
  · simp only [ByteOrder.put, ggufMagic, FILE_MAGIC_GGUF_LE] at hm
    simp only [ggufMagic, FILE_MAGIC_GGUF_LE, hm, Option.getD_some, FILE_MAGIC_GGML,
      FILE_MAGIC_GGMF, FILE_MAGIC_GGJT, FILE_MAGIC_GGLA]
    norm_num
    rw [hd, andThen_ok]
  · simp only [ByteOrder.put, ggufMagic, FILE_MAGIC_GGUF_BE] at hm
    simp only [ggufMagic, FILE_MAGIC_GGUF_BE, hm, Option.getD_some, FILE_MAGIC_GGML,
      FILE_MAGIC_GGMF, FILE_MAGIC_GGJT, FILE_MAGIC_GGLA, FILE_MAGIC_GGUF_LE]
    norm_num
    rw [hd, andThen_ok]

/-- C3: the magic selects the byte order of the fields.  For every well-formed body,
`DecodeGGML` on the magic `0x46554747` followed by the body with little-endian fields and on
the magic `0x47475546` followed by the same body with big-endian fields both succeed with
container name "gguf", and the two models have the same version, the same counts, the same
dictionary and the same parameter total (those of the body); only the byte order differs. -/
theorem DecodeGGML_byte_order (b : Body) (rest : Stream) (hwf : b.wellFormed = true) :
    ∃ g1 g2 : GGML, ∃ m1 m2 : ggufModel,
      DecodeGGML (putLE 4 0x46554747 ++ (encodeBody .LittleEndian b ++ rest)) = (.ok g1, rest) ∧
      DecodeGGML (putLE 4 0x47475546 ++ (encodeBody .BigEndian b ++ rest)) = (.ok g2, rest) ∧
      g1.container.Name = "gguf" ∧ g2.container.Name = "gguf" ∧
      g1.magic = 0x46554747 ∧ g2.magic = 0x47475546 ∧
      g1.model = some m1 ∧ g2.model = some m2 ∧
      g1.container = .GGUF m1.tocontainerGGUF ∧ g2.container = .GGUF m2.tocontainerGGUF ∧
      m1.bo = .LittleEndian ∧ m2.bo = .BigEndian ∧
      m1.Version = b.version ∧ m2.Version = b.version ∧
      m1.V1 = m2.V1 ∧ m1.V2 = m2.V2 ∧
      m1.NumTensor = b.tensors.length ∧ m2.NumTensor = b.tensors.length ∧
      m1.NumKV = b.kvs.length ∧ m2.NumKV = b.kvs.length ∧
      m1.kv = insertAll [] b.kvs ∧ m2.kv = insertAll [] b.kvs ∧
      m1.parameters = totalElements b.tensors % 2 ^ 64 ∧
      m2.parameters = totalElements b.tensors % 2 ^ 64 :=
  ⟨_, _, b.model .LittleEndian, b.model .BigEndian,
    DecodeGGML_encode .LittleEndian b rest hwf, DecodeGGML_encode .BigEndian b rest hwf,
    rfl, rfl, rfl, rfl, rfl, rfl, rfl, rfl, rfl, rfl, rfl, rfl, rfl, rfl,
    b.model_NumTensor _, b.model_NumTensor _, b.model_NumKV _, b.model_NumKV _,
    rfl, rfl, rfl, rfl⟩

theorem DecodeGGML_byte_order_witness :
    sampleBody.wellFormed = true ∧
    ∃ g1 g2 : GGML,
      DecodeGGML (putLE 4 0x46554747 ++ (encodeBody .LittleEndian sampleBody ++ [7])) =
        (.ok g1, [7]) ∧
      DecodeGGML (putLE 4 0x47475546 ++ (encodeBody .BigEndian sampleBody ++ [7])) =
        (.ok g2, [7]) ∧
      g1.container.Name = "gguf" ∧ g2.container.Name = "gguf" := by
  refine ⟨by decide, ?_⟩
  obtain ⟨g1, g2, _, _, h1, h2, h3, h4, _⟩ := DecodeGGML_byte_order sampleBody [7] (by decide)
  exact ⟨g1, g2, h1, h2, h3, h4⟩

theorem kv_get_insertAll_isSome (k : List Byte) (es : List (List Byte × WireValue)) :
    ∀ m : kv, ((insertAll m es).get k).isSome = true ↔
      (k ∈ es.map Prod.fst ∨ (m.get k).isSome = true) := by
  induction es with
  | nil => intro m; simp [insertAll]
  | cons e es ih =>
    intro m
    simp only [insertAll, ih, kv_get_set, List.map_cons, List.mem_cons]
    by_cases h : e.1 = k
    · simp [h]
    · have h2 : ¬ k = e.1 := fun hk => h hk.symm
      simp [h, h2]

/-- C7: round trip for GGUF version 2 and later.  For either byte order, every version from
2 on and every list of key-value pairs with pairwise distinct keys and well-formed values
(integers of the eight fixed widths, booleans, strings, homogeneous arrays of those; floats as
bit patterns too), writing the pairs in the wire format of these versions (64-bit counts,
64-bit length-prefixed strings without terminator, 32-bit type tags, arrays as element tag,
64-bit count, elements) with zero tensors and decoding the result succeeds, stops at the end
of what was written, and yields a dictionary whose keys are exactly the keys written, each
bound to the value written for it. -/
theorem Decode_roundtrip (bo : ByteOrder) (version : Nat)
    (kvs : List (List Byte × WireValue)) (rest : Stream)
    (hv : 2 ≤ version) (hwf : (Body.mk version kvs []).wellFormed = true)
    (hk : (kvs.map Prod.fst).Nodup) :
    encodeBody bo ⟨version, kvs, []⟩ =
        bo.put 4 version ++ bo.put 8 0 ++ bo.put 8 kvs.length ++ encodeKVs bo false kvs ∧
      ∃ m, (emptyGGUF bo).Decode (encodeBody bo ⟨version, kvs, []⟩ ++ rest) = (.ok m, rest) ∧
        (∀ e ∈ kvs, m.kv.get e.1 = some e.2.toValue) ∧
        (∀ k, (m.kv.get k).isSome = true ↔ k ∈ kvs.map Prod.fst) := by
  have h1 : ¬ version = 1 := by omega
  refine ⟨?_, _, emptyGGUF_Decode_encode bo _ rest hwf, ?_, ?_⟩
  · simp [encodeBody, Body.v1, h1, countWidth, encodeTensors]
  · intro e he
    obtain ⟨pre, post, hsplit⟩ := List.append_of_mem he
    simp only [Body.model]
    rw [hsplit] at hk ⊢
    apply kv_get_insertAll_last
    intro y hy hye
    rw [List.map_append, List.map_cons] at hk
    have hnd := (List.nodup_append.mp hk).2.1
    have hnot := (List.nodup_cons.mp hnd).1
    apply hnot
    rw [← hye]
    exact List.mem_map_of_mem Prod.fst hy
  · intro k
    simp only [Body.model]
    rw [kv_get_insertAll_isSome]
    simp [kv.get]

theorem Decode_roundtrip_witness :
    2 ≤ 3 ∧ (Body.mk 3 sampleKVs []).wellFormed = true ∧ (sampleKVs.map Prod.fst).Nodup ∧
    ∃ m, (emptyGGUF .BigEndian).Decode (encodeBody .BigEndian ⟨3, sampleKVs, []⟩ ++ []) =
        (.ok m, []) ∧
      (∀ e ∈ sampleKVs, m.kv.get e.1 = some e.2.toValue) ∧
      (∀ k, (m.kv.get k).isSome = true ↔ k ∈ sampleKVs.map Prod.fst) :=
  ⟨by decide, by decide, by decide,
    (Decode_roundtrip .BigEndian 3 sampleKVs [] (by decide) (by decide) (by decide)).2⟩

/-- C9: for every well-formed sequence of key-value entries, the dictionary that decoding
produces has exactly the keys that occur in the sequence, and each key is bound to the value
of the last entry, in stream order, that carries it: a later entry replaces an earlier one
with the same key, whatever their type tags. -/
theorem Decode_last_entry_wins (bo : ByteOrder) (b : Body) (rest : Stream)
    (hwf : b.wellFormed = true) :
    ∃ m, (emptyGGUF bo).Decode (encodeBody bo b ++ rest) = (.ok m, rest) ∧
      (∀ k, (m.kv.get k).isSome = true ↔ k ∈ b.kvs.map Prod.fst) ∧
      (∀ pre e post, b.kvs = pre ++ e :: post → (∀ y ∈ post, y.1 ≠ e.1) →
        m.kv.get e.1 = some e.2.toValue) := by
  refine ⟨_, emptyGGUF_Decode_encode bo b rest hwf, ?_, ?_⟩
  · intro k
    simp only [Body.model]
    rw [kv_get_insertAll_isSome]
    simp [kv.get]
  · intro pre e post hsplit hlast
    simp only [Body.model]
    rw [hsplit]
    exact kv_get_insertAll_last [] pre post e hlast

theorem Decode_last_entry_wins_witness :
    sampleBody.wellFormed = true ∧
    ∃ m, (emptyGGUF .LittleEndian).Decode (encodeBody .LittleEndian sampleBody ++ []) =
        (.ok m, []) ∧
      m.kv.get (asciiBytes "n") = some (.scalar (.string (asciiBytes "x"))) := by
  refine ⟨by decide, ?_⟩
  obtain ⟨m, h1, _, h3⟩ := Decode_last_entry_wins .LittleEndian sampleBody [] (by decide)
  exact ⟨m, h1, h3 [(asciiBytes "n", .scalar (.uint32 32)),
      (asciiBytes "tok", .array ggufTypeString [.string (asciiBytes "hi"), .string []])]
    (asciiBytes "n", .scalar (.string (asciiBytes "x"))) [] rfl
    (fun y hy => absurd hy (List.not_mem_nil y))⟩

/-! ## The parameter total -/

theorem elements_eq_prod (t : TensorInfo) : t.elements = t.extents.prod := by
  unfold TensorInfo.elements
  induction t.extents with
  | nil => rfl
  | cons d ds ih => simp [List.foldr_cons, List.prod_cons, ih]

theorem totalElements_eq_sum (ts : List TensorInfo) :
    totalElements ts = ((ts.map TensorInfo.extents).map List.prod).sum := by
  induction ts with
  | nil => rfl
  | cons t ts ih => simp [totalElements, elements_eq_prod, ih]

/-- C8: for every well-formed GGUF stream decoded into a fresh container, the parameter total
after `Decode` is the sum over the tensor descriptors of the product of the descriptor's
extents (1 for no extent), modulo `2 ^ 64`.  It depends on the extents only: two well-formed
bodies with the same extents give the same total whatever the names, element-type tags and
offsets (and entries) are, and a single tensor with extents `[2, 3, 4]` gives exactly 24. -/
theorem Decode_parameters (bo : ByteOrder) (b : Body) (rest : Stream)
    (hwf : b.wellFormed = true) :
    ∃ m, (emptyGGUF bo).Decode (encodeBody bo b ++ rest) = (.ok m, rest) ∧
      m.parameters = ((b.tensors.map TensorInfo.extents).map List.prod).sum % 2 ^ 64 ∧
      (∀ (b2 : Body) (rest2 : Stream), b2.wellFormed = true →
        b2.tensors.map TensorInfo.extents = b.tensors.map TensorInfo.extents →
        ∃ m2, (emptyGGUF bo).Decode (encodeBody bo b2 ++ rest2) = (.ok m2, rest2) ∧
          m2.parameters = m.parameters) ∧
      (b.tensors.map TensorInfo.extents = [[2, 3, 4]] → m.parameters = 24) := by
  refine ⟨_, emptyGGUF_Decode_encode bo b rest hwf, ?_, ?_, ?_⟩
  · simp only [Body.model, totalElements_eq_sum]
  · intro b2 rest2 hwf2 hext
    refine ⟨_, emptyGGUF_Decode_encode bo b2 rest2 hwf2, ?_⟩
    simp only [Body.model, totalElements_eq_sum, hext]
  · intro hext
    simp only [Body.model, totalElements_eq_sum, hext]
    norm_num

theorem Decode_parameters_witness :
    sampleBody.wellFormed = true ∧
    ∃ m, (emptyGGUF .LittleEndian).Decode (encodeBody .LittleEndian sampleBody ++ [1, 2]) =
        (.ok m, [1, 2]) ∧ m.parameters = 24 := by
  refine ⟨by decide, ?_⟩
  obtain ⟨m, h1, _, _, h4⟩ := Decode_parameters .LittleEndian sampleBody [1, 2] (by decide)
  exact ⟨m, h1, h4 rfl⟩

/-! ## Unknown type tags -/

theorem decodeKVs_container (n : Nat) :
    ∀ (llm l : ggufModel) (r r1 : Stream), ggufModel.decodeKVs n llm r = (.ok l, r1) →
      l.tocontainerGGUF = llm.tocontainerGGUF := by
  induction n with
  | zero =>
    intro llm l r r1 h
    simp only [ggufModel.decodeKVs, Prod.mk.injEq, Outcome.ok.injEq] at h
    rw [← h.1]
  | succ n ih =>
    intro llm l r r1 h
    simp only [ggufModel.decodeKVs] at h
    rcases hk : llm.readString r with ⟨ok, r2⟩
    rw [hk] at h
    cases ok with
    | ok k =>
      simp only [andThen_ok] at h
      rcases hv : llm.readValue (llm.readU32 r2).1 (llm.readU32 r2).2 with ⟨ov, r3⟩
      rw [hv] at h
      cases ov with
      | ok v =>
        simp only [andThen_ok] at h
        exact ih { llm with kv := llm.kv.set k v } l r3 r1 h
      | err e => simp [Outcome.andThen] at h
      | panic => simp [Outcome.andThen] at h
    | err e => simp [Outcome.andThen] at h
    | panic => simp [Outcome.andThen] at h

theorem readValue_invalid (llm : ggufModel) (vtype : Nat) (r : Stream) (h : 12 < vtype) :
    llm.readValue vtype r = (.err (.invalidType vtype), r) := by
  unfold ggufModel.readValue
  simp only [ggufTypeUint8, ggufTypeInt8, ggufTypeUint16, ggufTypeInt16, ggufTypeUint32,
    ggufTypeInt32, ggufTypeUint64, ggufTypeInt64, ggufTypeFloat32, ggufTypeFloat64,
    ggufTypeBool, ggufTypeString, ggufTypeArray]
  rw [if_neg (by omega), if_neg (by omega), if_neg (by omega), if_neg (by omega),
    if_neg (by omega), if_neg (by omega), if_neg (by omega), if_neg (by omega),
    if_neg (by omega), if_neg (by omega), if_neg (by omega), if_neg (by omega),
    if_neg (by omega)]

/-- C10: when the first `j` entries of the key-value section decode (`j` below the announced
count), the key of the next entry decodes, and the 32-bit type tag `t` that follows is outside
0..12, `Decode` returns the error "invalid type: t" with `t` in decimal and the reader stands
right behind the tag: nothing of the value was read.  `DecodeGGML`, on the magic followed by a
header and such a key-value section, returns that error and no result. -/
theorem Decode_invalid_type (llm llm1 : ggufModel) (r r1 r3 : Stream) (tb k : List Byte)
    (j : Nat) (hj : j < llm.NumKV)
    (hpre : ggufModel.decodeKVs j llm r = (.ok llm1, r1))
    (hkey : llm1.readString r1 = (.ok k, tb ++ r3))
    (htb : tb.length = 4) (ht : 12 < llm.bo.Uint tb) :
    llm.Decode r = (.err (.invalidType (llm.bo.Uint tb)), r3) ∧
      (GoError.invalidType (llm.bo.Uint tb)).Error =
        "invalid type: " ++ toString (llm.bo.Uint tb) ∧
      (∀ s : Stream, (emptyGGUF llm.bo).readHeader s = (llm.tocontainerGGUF, r) → llm.kv = [] →
        DecodeGGML (putLE 4 (ggufMagic llm.bo) ++ s) =
          (.err (.invalidType (llm.bo.Uint tb)), r3)) := by
  have hbo : llm1.bo = llm.bo := by rw [decodeKVs_container j llm llm1 r r1 hpre]
  have hread : llm1.readU32 (tb ++ r3) = (llm.bo.Uint tb, r3) := by
    have h := binaryRead_append llm1.bo tb r3
    rw [htb, hbo] at h
    simp only [ggufModel.readU32, ggufModel.readBits, hbo, h, Option.getD_some]
  have hdec : llm.Decode r = (.err (.invalidType (llm.bo.Uint tb)), r3) := by
    unfold ggufModel.Decode
    obtain ⟨n, hn⟩ : ∃ n, llm.NumKV = j + (n + 1) := ⟨llm.NumKV - j - 1, by omega⟩
    rw [hn, decodeKVs_add, hpre, andThen_ok]
    simp only [ggufModel.decodeKVs, hkey, andThen_ok, hread, readValue_invalid llm1 _ r3 ht]
    rfl
  refine ⟨hdec, rfl, ?_⟩
  intro s hs hkv
  have hm := binaryRead_put .LittleEndian 4 (ggufMagic llm.bo) s
  have hcd : (emptyGGUF llm.bo).Decode s = (.err (.invalidType (llm.bo.Uint tb)), r3) := by
    unfold containerGGUF.Decode
    rw [hs]
    have : newGGUFModel llm.tocontainerGGUF = llm := by
      cases llm
      simp only [newGGUFModel] at hkv ⊢
      rw [hkv]
    rw [this]
    exact hdec
  unfold DecodeGGML
  cases hb : llm.bo
  · rw [hb] at hm hcd
    simp only [ByteOrder.put, ggufMagic, FILE_MAGIC_GGUF_LE] at hm
    simp only [ggufMagic, FILE_MAGIC_GGUF_LE, hm, Option.getD_some, FILE_MAGIC_GGML,
      FILE_MAGIC_GGMF, FILE_MAGIC_GGJT, FILE_MAGIC_GGLA]
    norm_num
    rw [hcd]
    rfl
  · rw [hb] at hm hcd
    simp only [ByteOrder.put, ggufMagic, FILE_MAGIC_GGUF_BE] at hm
    simp only [ggufMagic, FILE_MAGIC_GGUF_BE, hm, Option.getD_some, FILE_MAGIC_GGML,
      FILE_MAGIC_GGMF, FILE_MAGIC_GGJT, FILE_MAGIC_GGLA, FILE_MAGIC_GGUF_LE]
    norm_num
    rw [hcd]
    rfl

theorem Decode_invalid_type_witness :
    1 < sampleModel.NumKV ∧
    ggufModel.decodeKVs 1 sampleModel sampleBadSection =
      (.ok { sampleModel with kv := [(asciiBytes "a", .scalar (.uint8 5))] },
        [1, 0, 0, 0, 0, 0, 0, 0, 98] ++ ([13, 0, 0, 0] ++ [255])) ∧
    sampleModel.Decode sampleBadSection = (.err (.invalidType 13), [255]) :=
  ⟨by decide, by decide,
    (Decode_invalid_type sampleModel
      { sampleModel with kv := [(asciiBytes "a", .scalar (.uint8 5))] }
      sampleBadSection ([1, 0, 0, 0, 0, 0, 0, 0, 98] ++ ([13, 0, 0, 0] ++ [255])) [255]
      [13, 0, 0, 0] (asciiBytes "b") 1 (by decide) (by decide) (by decide) (by decide)
      (by decide)).1⟩

/-! ## Arrays: element tags and truncation -/

theorem readBits_put_mod (llm : ggufModel) (w x : Nat) (rest : Stream) :
    llm.readBits w (llm.bo.put w x ++ rest) = (x % 256 ^ w, rest) := by
  simp [ggufModel.readBits, binaryRead_put]

/-- C11 (the code departs from the claim): the element tag of an array is looked at inside the
element loop only, so an array with a declared count of 0 decodes to the empty array whatever
its element tag is, for every version and byte order.  A file whose single entry is an array
with element tag 13 and count 0 is decoded without error, while the same tag with count 1 is
rejected with "invalid array type: 13". -/
theorem readArray_count_zero_any_tag (llm : ggufModel) (t : Nat) (rest : Stream) :
    llm.readArray (llm.bo.put 4 t ++ llm.bo.put (if llm.Version = 1 then 4 else 8) 0 ++ rest) =
        (.ok [], rest) ∧
      sampleModel.readArray [13, 0, 0, 0, 0, 0, 0, 0, 0, 0, 0, 0, 9] = (.ok [], [9]) ∧
      sampleModelV1.readArray [13, 0, 0, 0, 0, 0, 0, 0, 9] = (.ok [], [9]) ∧
      sampleModel.readArray [13, 0, 0, 0, 1, 0, 0, 0, 0, 0, 0, 0, 9] =
        (.err (.invalidArrayType 13), [9]) ∧
      (DecodeGGML [0x47, 0x47, 0x55, 0x46, 3, 0, 0, 0, 0, 0, 0, 0, 0, 0, 0, 0,
          1, 0, 0, 0, 0, 0, 0, 0, 1, 0, 0, 0, 0, 0, 0, 0, 107, 9, 0, 0, 0,
          13, 0, 0, 0, 0, 0, 0, 0, 0, 0, 0, 0]).1 =
        .ok { magic := 0x46554747
              container := .GGUF { emptyGGUF .LittleEndian with Version := 3, V2 := ⟨0, 1⟩ }
              model := some { newGGUFModel
                  { emptyGGUF .LittleEndian with Version := 3, V2 := ⟨0, 1⟩ } with
                kv := [([107], .array [])] } } := by
  refine ⟨?_, by decide, by decide, by decide, by decide⟩
  unfold ggufModel.readArray
  by_cases hv : llm.Version = 1
  · simp only [hv, if_true, ggufModel.readArrayV1, ggufModel.readU32, List.append_assoc,
      readBits_put_mod, Nat.zero_mod, ggufModel.readArrayV1Loop]
  · simp only [hv, if_false, ggufModel.readU32, ggufModel.readU64, List.append_assoc,
      readBits_put_mod, Nat.zero_mod, ggufModel.readArrayLoop]

/-- C13 (the code departs from the claim): the fixed-width readers drop the error of
`binary.Read`, so an array of three `uint8` elements with a single byte left in the stream is
returned as three elements, the last two of which were never read; no error is reported.  The
same happens under version 1, and a file that ends inside such an array is decoded as valid.
Only string elements report the end of the stream. -/
theorem readArray_truncated_no_error :
    sampleModel.readArray [0, 0, 0, 0, 3, 0, 0, 0, 0, 0, 0, 0, 7] =
        (.ok [.uint8 7, .uint8 0, .uint8 0], []) ∧
      sampleModelV1.readArray [0, 0, 0, 0, 3, 0, 0, 0, 7] =
        (.ok [.uint8 7, .uint8 0, .uint8 0], []) ∧
      sampleModel.readArray [4, 0, 0, 0, 2, 0, 0, 0, 0, 0, 0, 0, 1, 2] =
        (.ok [.uint32 0, .uint32 0], []) ∧
      sampleModel.readArray [8, 0, 0, 0, 1, 0, 0, 0, 0, 0, 0, 0, 2, 0, 0, 0, 0, 0, 0, 0, 104] =
        (.err .EOF, []) ∧
      (DecodeGGML [0x47, 0x47, 0x55, 0x46, 3, 0, 0, 0, 0, 0, 0, 0, 0, 0, 0, 0,
          1, 0, 0, 0, 0, 0, 0, 0, 1, 0, 0, 0, 0, 0, 0, 0, 107, 9, 0, 0, 0,
          0, 0, 0, 0, 3, 0, 0, 0, 0, 0, 0, 0, 7]).1 =
        .ok { magic := 0x46554747
              container := .GGUF { emptyGGUF .LittleEndian with Version := 3, V2 := ⟨0, 1⟩ }
              model := some { newGGUFModel
                  { emptyGGUF .LittleEndian with Version := 3, V2 := ⟨0, 1⟩ } with
                kv := [([107], .array [.uint8 7, .uint8 0, .uint8 0])] } } :=
  ⟨by decide, by decide, by decide, by decide, by decide⟩

/-- C14 (the code departs from the claim): `containerGGUF.Decode` drops the errors of its
three `binary.Read` calls, so a stream that ends inside the header is decoded as a valid file
with an empty dictionary: the magic alone, the magic with half a version field, and the magic
with a version and an incomplete count pair all succeed. -/
theorem DecodeGGML_truncated_header :
    DecodeGGML [0x47, 0x47, 0x55, 0x46] =
        (.ok { magic := 0x46554747, container := .GGUF (emptyGGUF .LittleEndian)
               model := some (newGGUFModel (emptyGGUF .LittleEndian)) }, []) ∧
      DecodeGGML [0x47, 0x47, 0x55, 0x46, 3, 0] =
        (.ok { magic := 0x46554747, container := .GGUF (emptyGGUF .LittleEndian)
               model := some (newGGUFModel (emptyGGUF .LittleEndian)) }, []) ∧
      DecodeGGML [0x47, 0x47, 0x55, 0x46, 3, 0, 0, 0, 5, 0, 0, 0, 0, 0, 0, 0, 2, 0, 0] =
        (.ok { magic := 0x46554747
               container := .GGUF { emptyGGUF .LittleEndian with Version := 3 }
               model := some (newGGUFModel { emptyGGUF .LittleEndian with Version := 3 }) },
          []) ∧
      DecodeGGML [0x46, 0x55, 0x47, 0x47, 0, 0, 0, 1, 0, 0, 0, 4, 0, 0] =
        (.ok { magic := 0x47475546
               container := .GGUF { emptyGGUF .BigEndian with Version := 1 }
               model := some (newGGUFModel { emptyGGUF .BigEndian with Version := 1 }) },
          []) :=
  ⟨by decide, by decide, by decide, by decide⟩

theorem readElemV1_invalid (llm : ggufModel) (atype : Nat) (r : Stream) (h : 8 < atype) :
    llm.readElemV1 atype r = (.err (.invalidArrayType atype), r) := by
  unfold ggufModel.readElemV1
  simp only [ggufTypeUint8, ggufTypeInt8, ggufTypeUint16, ggufTypeInt16, ggufTypeUint32,
    ggufTypeInt32, ggufTypeFloat32, ggufTypeBool, ggufTypeString]
  rw [if_neg (by omega), if_neg (by omega), if_neg (by omega), if_neg (by omega),
    if_neg (by omega), if_neg (by omega), if_neg (by omega), if_neg (by omega),
    if_neg (by omega)]

/-- C12, the claim as stated fails: under version 1 an array of one 64-bit unsigned element
(element tag 10) whose eight bytes are in the stream is rejected with "invalid array type: 10",
and so are the element tags 11 and 12, although version 2 accepts the same arrays. -/
theorem readArrayV1_rejects_64bit_kinds :
    sampleModelV1.readArray [10, 0, 0, 0, 1, 0, 0, 0, 1, 2, 3, 4, 5, 6, 7, 8] =
        (.err (.invalidArrayType 10), [1, 2, 3, 4, 5, 6, 7, 8]) ∧
      sampleModelV1.readArray [11, 0, 0, 0, 1, 0, 0, 0, 1, 2, 3, 4, 5, 6, 7, 8] =
        (.err (.invalidArrayType 11), [1, 2, 3, 4, 5, 6, 7, 8]) ∧
      sampleModelV1.readArray [12, 0, 0, 0, 1, 0, 0, 0, 1, 2, 3, 4, 5, 6, 7, 8] =
        (.err (.invalidArrayType 12), [1, 2, 3, 4, 5, 6, 7, 8]) ∧
      sampleModel.readArray [10, 0, 0, 0, 1, 0, 0, 0, 0, 0, 0, 0, 1, 2, 3, 4, 5, 6, 7, 8] =
        (.ok [.uint64 0x0807060504030201], []) :=
  ⟨by decide, by decide, by decide, by decide⟩

/-- C12 as amended: the two versionings accept different element tags.  Under version 1 every
array whose element tag is one of 0..8, and under every other version every array whose element
tag is one of 0..8, 10, 11, 12, whose `n` well-formed elements are all in the stream, decodes
without error to exactly those `n` elements in stream order, each of the kind of the tag.  The
width of the count (32 bits under version 1, 64 bits otherwise) and the string variant differ,
and under version 1 the element tags 10, 11, 12 are rejected as soon as the count is not 0. -/
theorem readArray_accepted_kinds (llm : ggufModel) (atype : Nat) (xs : List Scalar)
    (rest : Stream)
    (htag : if llm.Version = 1 then atype ≤ 8
      else (atype ≤ 8 ∨ (10 ≤ atype ∧ atype ≤ 12)))
    (hlen : xs.length < 2 ^ (if llm.Version = 1 then 32 else 64))
    (helems : ∀ x ∈ xs, x.tag = atype ∧ x.wellFormed (decide (llm.Version = 1)) = true) :
    llm.readArray (llm.bo.put 4 atype ++
          llm.bo.put (if llm.Version = 1 then 4 else 8) xs.length ++
          encodeScalars llm.bo (decide (llm.Version = 1)) xs ++ rest) = (.ok xs, rest) ∧
      (llm.Version = 1 → ∀ (t n : Nat) (r : Stream), 10 ≤ t → t ≤ 12 → 1 ≤ n → n < 2 ^ 32 →
        llm.readArray (llm.bo.put 4 t ++ llm.bo.put 4 n ++ r) =
          (.err (.invalidArrayType t), r)) := by
  constructor
  · have hwf : (WireValue.array atype xs).wellFormed (decide (llm.Version = 1)) = true := by
      simp only [WireValue.wellFormed, Bool.and_eq_true, decide_eq_true_eq, List.all_eq_true,
        countWidth, ggufTypeArray]
      by_cases hv : llm.Version = 1
      · simp only [hv, if_true] at htag hlen
        simp only [hv, decide_True, if_true] at helems ⊢
        exact ⟨⟨⟨by omega, by omega, fun _ => htag⟩, hlen⟩, helems⟩
      · simp only [hv, if_false] at htag hlen
        simp only [hv, decide_False, if_false, Bool.false_eq_true] at helems ⊢
        exact ⟨⟨⟨by omega, by omega, fun h => absurd h (by simp)⟩, hlen⟩, helems⟩
    have h := readArray_encode llm atype xs rest hwf
    simp only [encodeValue, countWidth, List.append_assoc] at h ⊢
    by_cases hv : llm.Version = 1
    · simpa [hv] using h
    · simpa [hv] using h
  · intro hv t n r h10 h12 h1 h32
    have ht : t < 2 ^ 32 := by
      have : (12 : Nat) < 2 ^ 32 := by norm_num
      omega
    obtain ⟨m, rfl⟩ : ∃ m, n = m + 1 := ⟨n - 1, by omega⟩
    unfold ggufModel.readArray
    rw [if_pos hv]
    simp only [ggufModel.readArrayV1, List.append_assoc, readU32_put llm t _ ht,
      readU32_put llm (m + 1) _ h32, ggufModel.readArrayV1Loop,
      readElemV1_invalid llm t r (by omega)]
    rfl

theorem readArray_accepted_kinds_witness :
    (if sampleModelV1.Version = 1 then 8 ≤ 8 else (8 ≤ 8 ∨ (10 ≤ 8 ∧ 8 ≤ 12))) ∧
    ([Scalar.string (asciiBytes "hi"), Scalar.string []] : List Scalar).length <
      2 ^ (if sampleModelV1.Version = 1 then 32 else 64) ∧
    sampleModelV1.readArray (sampleModelV1.bo.put 4 8 ++
        sampleModelV1.bo.put (if sampleModelV1.Version = 1 then 4 else 8)
          ([Scalar.string (asciiBytes "hi"), Scalar.string []] : List Scalar).length ++
        encodeScalars sampleModelV1.bo (decide (sampleModelV1.Version = 1))
          [Scalar.string (asciiBytes "hi"), Scalar.string []] ++ [5]) =
      (.ok [Scalar.string (asciiBytes "hi"), Scalar.string []], [5]) :=
  ⟨by decide, by decide,
    (readArray_accepted_kinds sampleModelV1 8 [Scalar.string (asciiBytes "hi"), Scalar.string []]
      [5] (by decide) (by decide) (by decide)).1⟩

/-! ## Queries on the decoded model -/

/-- C15, the claim as stated fails: a file without `general.architecture` whose dictionary
binds `unknown.block_count` to the 32-bit unsigned value 7 decodes, its family is "unknown",
and `NumLayers` returns 7, not 0. -/
theorem NumLayers_unknown_family_not_zero :
    sampleUnknownBody.wellFormed = true ∧
      (sampleUnknownBody.model .LittleEndian).kv.get (asciiBytes "general.architecture") =
        none ∧
      (sampleUnknownBody.model .LittleEndian).ModelFamily = asciiBytes "unknown" ∧
      (sampleUnknownBody.model .LittleEndian).NumLayers = .ok 7 ∧
      (sampleUnknownBody.model .LittleEndian).NumLayers ≠ .ok 0 ∧
      DecodeGGML (putLE 4 (ggufMagic .LittleEndian) ++
          (encodeBody .LittleEndian sampleUnknownBody ++ [])) =
        (.ok { magic := ggufMagic .LittleEndian
               container := .GGUF (sampleUnknownBody.model .LittleEndian).tocontainerGGUF
               model := some (sampleUnknownBody.model .LittleEndian) }, []) :=
  ⟨by decide, by decide, by decide, by decide, by decide,
    DecodeGGML_encode .LittleEndian sampleUnknownBody [] (by decide)⟩

/-- C15 as amended: for every dictionary that has no string under `general.architecture` (the
key is absent or bound to a value of another kind), `ModelFamily` returns "unknown", and
`NumLayers` returns 0 when the dictionary has no key `unknown.block_count` and `v` when that
key is bound to the 32-bit unsigned value `v`; when `general.architecture` is bound to a
string `s`, `ModelFamily` returns `s`. -/
theorem ModelFamily_NumLayers_unknown (llm : ggufModel)
    (h : ∀ s, llm.kv.get (asciiBytes "general.architecture") ≠ some (.scalar (.string s))) :
    llm.ModelFamily = asciiBytes "unknown" ∧
      (llm.kv.get (asciiBytes "unknown.block_count") = none → llm.NumLayers = .ok 0) ∧
      (∀ v, llm.kv.get (asciiBytes "unknown.block_count") = some (.scalar (.uint32 v)) →
        llm.NumLayers = .ok (v : Int)) ∧
      (∀ (llm2 : ggufModel) (s : List Byte),
        llm2.kv.get (asciiBytes "general.architecture") = some (.scalar (.string s)) →
        llm2.ModelFamily = s) := by
  have hfam : llm.ModelFamily = asciiBytes "unknown" := by
    unfold ggufModel.ModelFamily kv.assertString
    cases hg : llm.kv.get (asciiBytes "general.architecture") with
    | none => rfl
    | some v =>
      cases v with
      | array xs => rfl
      | scalar x =>
        cases x with
        | string t => exact absurd hg (h t)
        | _ => rfl
  have hkey : asciiBytes "unknown" ++ asciiBytes ".block_count" =
      asciiBytes "unknown.block_count" := by decide
  refine ⟨hfam, ?_, ?_, ?_⟩
  · intro hn
    unfold ggufModel.NumLayers
    rw [hfam, hkey, hn]
  · intro v hv
    unfold ggufModel.NumLayers
    rw [hfam, hkey, hv]
  · intro llm2 s hs
    unfold ggufModel.ModelFamily kv.assertString
    rw [hs]
    simp

theorem ModelFamily_NumLayers_unknown_witness :
    (∀ s, (newGGUFModel (emptyGGUF .LittleEndian)).kv.get (asciiBytes "general.architecture") ≠
      some (.scalar (.string s))) ∧
    (newGGUFModel (emptyGGUF .LittleEndian)).ModelFamily = asciiBytes "unknown" ∧
    (newGGUFModel (emptyGGUF .LittleEndian)).NumLayers = .ok 0 :=
  ⟨fun s hs => by simp [newGGUFModel, kv.get] at hs,
    (ModelFamily_NumLayers_unknown (newGGUFModel (emptyGGUF .LittleEndian))
      (fun s hs => by simp [newGGUFModel, kv.get] at hs)).1,
    (ModelFamily_NumLayers_unknown (newGGUFModel (emptyGGUF .LittleEndian))
      (fun s hs => by simp [newGGUFModel, kv.get] at hs)).2.1 rfl⟩

/-- C16 (the code departs from the claim): `NumLayers` asserts `value.(uint32)` without the
checked form its sibling queries use.  A file of family "llama" that stores
`llama.block_count` as a 64-bit unsigned integer decodes, and `NumLayers` on the decoded model
panics instead of returning 0; so it does for a signed integer and for a string. -/
theorem NumLayers_panics_on_other_kind :
    sampleWideBody.wellFormed = true ∧
      DecodeGGML (putLE 4 (ggufMagic .LittleEndian) ++
          (encodeBody .LittleEndian sampleWideBody ++ [])) =
        (.ok { magic := ggufMagic .LittleEndian
               container := .GGUF (sampleWideBody.model .LittleEndian).tocontainerGGUF
               model := some (sampleWideBody.model .LittleEndian) }, []) ∧
      (sampleWideBody.model .LittleEndian).ModelFamily = asciiBytes "llama" ∧
      (sampleWideBody.model .LittleEndian).kv.get (asciiBytes "llama.block_count") =
        some (.scalar (.uint64 32)) ∧
      (sampleWideBody.model .LittleEndian).NumLayers = .panic ∧
      sampleWideBlockCount.NumLayers = .panic ∧
      ggufModel.NumLayers { sampleWideBlockCount with
        kv := [(asciiBytes "unknown.block_count", .scalar (.int32 (-1)))] } = .panic ∧
      ggufModel.NumLayers { sampleWideBlockCount with
        kv := [(asciiBytes "unknown.block_count", .scalar (.string (asciiBytes "32")))] } =
        .panic :=
  ⟨by decide, DecodeGGML_encode .LittleEndian sampleWideBody [] (by decide),
    by decide, by decide, by decide, by decide, by decide, by decide⟩

theorem readBits_eq (llm : ggufModel) (w : Nat) (r : Stream) :
    llm.readBits w r =
      if w ≤ r.length then (llm.bo.Uint (r.take w), r.drop w) else (0, []) := by
  unfold ggufModel.readBits
  by_cases h : w ≤ r.length
  · rw [if_pos h, binaryRead_full _ w r h]
    rfl
  · rw [if_neg h, binaryRead_short _ w r (by omega)]
    rfl

/-- C20: the version-1 string reader is not total.  With `n` the 32-bit length it obtains (the
value of the first four bytes, or 0 when the stream ends before them), `readStringV1` panics
in its truncation to length -1 exactly when `n = 0`; for `n ≥ 1` it returns the first `n - 1` of
the following bytes (a string of length `n - 1`) when `n` bytes follow, and the read error
`io.EOF` otherwise. -/
theorem readStringV1_panics_iff (llm : ggufModel) (r : Stream) :
    ((llm.readStringV1 r).1 = .panic ↔
        (if 4 ≤ r.length then llm.bo.Uint (r.take 4) else 0) = 0) ∧
      (((if 4 ≤ r.length then llm.bo.Uint (r.take 4) else 0) = 0 ∧
          (llm.readStringV1 r).1 = .panic) ∨
        (1 ≤ llm.bo.Uint (r.take 4) ∧ llm.bo.Uint (r.take 4) ≤ (r.drop 4).length ∧
          llm.readStringV1 r = (.ok ((r.drop 4).take (llm.bo.Uint (r.take 4) - 1)),
            (r.drop 4).drop (llm.bo.Uint (r.take 4))) ∧
          ((r.drop 4).take (llm.bo.Uint (r.take 4) - 1)).length =
            llm.bo.Uint (r.take 4) - 1) ∨
        (1 ≤ llm.bo.Uint (r.take 4) ∧ (r.drop 4).length < llm.bo.Uint (r.take 4) ∧
          llm.readStringV1 r = (.err .EOF, []))) := by
  unfold ggufModel.readStringV1 CopyN
  simp only [readBits_eq llm 4 r]
  by_cases h4 : 4 ≤ r.length
  · simp only [h4, if_true, Int.toNat_ofNat]
    generalize llm.bo.Uint (r.take 4) = n
    rw [if_neg (by omega)]
    by_cases hn : n = 0
    · subst hn
      simp
    · by_cases hle : n ≤ (r.drop 4).length
      · simp only [hle, if_true, List.length_take, Nat.min_eq_left hle]
        rw [if_neg (by omega), List.take_take, Nat.min_eq_left (by omega)]
        refine ⟨by simp [hn], Or.inr (Or.inl ⟨by omega, trivial, rfl, ?_⟩)⟩
        exact min_eq_left (by omega : n - 1 ≤ (List.drop 4 r).length)
      · simp only [hle, if_false]
        exact ⟨by simp [hn], Or.inr (Or.inr ⟨by omega, by omega, by first | rfl | trivial⟩)⟩
  · simp [h4]

theorem ModelFamily_of_string (llm : ggufModel) (s : List Byte)
    (h : llm.kv.get (asciiBytes "general.architecture") = some (.scalar (.string s))) :
    llm.ModelFamily = s := by
  unfold ggufModel.ModelFamily kv.assertString
  rw [h]
  simp

theorem assertUint32_of_get (m : kv) (k : List Byte) (v : Nat)
    (h : m.get k = some (.scalar (.uint32 v))) : m.assertUint32 k = (v, true) := by
  unfold kv.assertUint32
  rw [h]

/-- C17: for every model whose parameter total is 0 and whose dictionary has
`general.architecture` = "llama", a 32-bit unsigned `llama.block_count` of any value, and
32-bit unsigned `llama.head_count` and `llama.head_count_kv` with `head_count_kv ≠ 0` and
`head_count / head_count_kv = 8` (integer division), `ModelType` returns "70B", whatever the
block count and the functions of the other files are. -/
theorem ModelType_llama_70B (ext : External) (llm : ggufModel) (blocks heads headKVs : Nat)
    (hp : llm.parameters = 0)
    (ha : llm.kv.get (asciiBytes "general.architecture") =
      some (.scalar (.string (asciiBytes "llama"))))
    (hb : llm.kv.get (asciiBytes "llama.block_count") = some (.scalar (.uint32 blocks)))
    (hh : llm.kv.get (asciiBytes "llama.head_count") = some (.scalar (.uint32 heads)))
    (hk : llm.kv.get (asciiBytes "llama.head_count_kv") = some (.scalar (.uint32 headKVs)))
    (h0 : headKVs ≠ 0) (h8 : heads / headKVs = 8) :
    llm.ModelType ext = .ok (asciiBytes "70B") := by
  unfold ggufModel.ModelType
  rw [if_neg (by omega), if_pos (ModelFamily_of_string llm _ ha)]
  simp only [assertUint32_of_get _ _ _ hb, assertUint32_of_get _ _ _ hh,
    assertUint32_of_get _ _ _ hk, and_self, if_true]
  rw [if_neg h0, if_pos h8]

theorem ModelType_llama_70B_witness :
    (sampleLlama 80 64 8).parameters = 0 ∧ (8 : Nat) ≠ 0 ∧ 64 / 8 = 8 ∧
    (∀ ext : External, (sampleLlama 80 64 8).ModelType ext = .ok (asciiBytes "70B")) ∧
    (∀ ext : External, (sampleLlama 1 64 8).ModelType ext = .ok (asciiBytes "70B")) :=
  ⟨rfl, by decide, by decide,
    fun ext => ModelType_llama_70B ext (sampleLlama 80 64 8) 80 64 8 rfl (by decide)
      (by decide) (by decide) (by decide) (by decide) (by decide),
    fun ext => ModelType_llama_70B ext (sampleLlama 1 64 8) 1 64 8 rfl (by decide)
      (by decide) (by decide) (by decide) (by decide) (by decide)⟩

theorem ModelType_zero_head_count_kv (ext : External) (llm : ggufModel) (blocks heads : Nat)
    (hp : llm.parameters = 0)
    (ha : llm.kv.get (asciiBytes "general.architecture") =
      some (.scalar (.string (asciiBytes "llama"))))
    (hb : llm.kv.get (asciiBytes "llama.block_count") = some (.scalar (.uint32 blocks)))
    (hh : llm.kv.get (asciiBytes "llama.head_count") = some (.scalar (.uint32 heads)))
    (hk : llm.kv.get (asciiBytes "llama.head_count_kv") = some (.scalar (.uint32 0))) :
    llm.ModelType ext = .panic := by
  unfold ggufModel.ModelType
  rw [if_neg (by omega), if_pos (ModelFamily_of_string llm _ ha)]
  simp only [assertUint32_of_get _ _ _ hb, assertUint32_of_get _ _ _ hh,
    assertUint32_of_get _ _ _ hk, and_self, if_true]

/-- C18 (the code departs from the claim): in `ModelType` the division `heads/headKVs` is not
guarded.  A file of family "llama" without tensors that stores a 32-bit unsigned
`llama.block_count`, `llama.head_count` = 32 and `llama.head_count_kv` = 0 decodes with
parameter total 0, and `ModelType` on the decoded model panics (integer division by zero)
instead of returning a string, whatever the functions of the other files are. -/
theorem ModelType_panics_on_zero_head_count_kv (ext : External) :
    sampleZeroHeadsBody.wellFormed = true ∧
      DecodeGGML (putLE 4 (ggufMagic .LittleEndian) ++
          (encodeBody .LittleEndian sampleZeroHeadsBody ++ [])) =
        (.ok { magic := ggufMagic .LittleEndian
               container := .GGUF (sampleZeroHeadsBody.model .LittleEndian).tocontainerGGUF
               model := some (sampleZeroHeadsBody.model .LittleEndian) }, []) ∧
      (sampleZeroHeadsBody.model .LittleEndian).parameters = 0 ∧
      (sampleZeroHeadsBody.model .LittleEndian).ModelType ext = .panic ∧
      (sampleLlama 32 32 0).ModelType ext = .panic :=
  ⟨by decide, DecodeGGML_encode .LittleEndian sampleZeroHeadsBody [] (by decide), by decide,
    ModelType_zero_head_count_kv ext _ 32 32 (by decide) (by decide) (by decide) (by decide)
      (by decide),
    ModelType_zero_head_count_kv ext _ 32 32 rfl (by decide) (by decide) (by decide)
      (by decide)⟩

theorem fileType_unknown (c : Nat) (h : c = 5 ∨ c = 6 ∨ 19 ≤ c) :
    fileType c = asciiBytes "unknown" := by
  unfold fileType
  simp only [fileTypeF32, fileTypeF16, fileTypeQ4_0, fileTypeQ4_1, fileTypeQ4_1_F16,
    fileTypeQ8_0, fileTypeQ5_0, fileTypeQ5_1, fileTypeQ2_K, fileTypeQ3_K_S, fileTypeQ3_K_M,
    fileTypeQ3_K_L, fileTypeQ4_K_S, fileTypeQ4_K_M, fileTypeQ5_K_S, fileTypeQ5_K_M,
    fileTypeQ6_K]
  rw [if_neg (by omega), if_neg (by omega), if_neg (by omega), if_neg (by omega),
    if_neg (by omega), if_neg (by omega), if_neg (by omega), if_neg (by omega),
    if_neg (by omega), if_neg (by omega), if_neg (by omega), if_neg (by omega),
    if_neg (by omega), if_neg (by omega), if_neg (by omega), if_neg (by omega),
    if_neg (by omega)]

/-- C19: `FileType` maps `general.file_type` through the table of `fileType`.  For a 32-bit
unsigned code `c` it returns `fileType c`, which is F32, F16, Q4_0, Q4_1, Q4_1_F16 for
`c = 0..4` and Q8_0, Q5_0, Q5_1, Q2_K, Q3_K_S, Q3_K_M, Q3_K_L, Q4_K_S, Q4_K_M, Q5_K_S, Q5_K_M,
Q6_K for `c = 7..18`, seventeen pairwise distinct labels, and "unknown" for every other code
(5, 6 and every `c ≥ 19`, so 255); when the key is missing or not a 32-bit unsigned value it
returns "unknown". -/
theorem FileType_table (llm : ggufModel) (c : Nat)
    (h : llm.kv.get (asciiBytes "general.file_type") = some (.scalar (.uint32 c))) :
    llm.FileType = fileType c ∧
      List.map fileType [0, 1, 2, 3, 4] =
        [asciiBytes "F32", asciiBytes "F16", asciiBytes "Q4_0", asciiBytes "Q4_1",
          asciiBytes "Q4_1_F16"] ∧
      List.map fileType [7, 8, 9, 10, 11, 12, 13, 14, 15, 16, 17, 18] =
        [asciiBytes "Q8_0", asciiBytes "Q5_0", asciiBytes "Q5_1", asciiBytes "Q2_K",
          asciiBytes "Q3_K_S", asciiBytes "Q3_K_M", asciiBytes "Q3_K_L", asciiBytes "Q4_K_S",
          asciiBytes "Q4_K_M", asciiBytes "Q5_K_S", asciiBytes "Q5_K_M", asciiBytes "Q6_K"] ∧
      (List.map fileType [0, 1, 2, 3, 4, 7, 8, 9, 10, 11, 12, 13, 14, 15, 16, 17, 18]).Nodup ∧
      (∀ d, d = 5 ∨ d = 6 ∨ 19 ≤ d → fileType d = asciiBytes "unknown") ∧
      fileType 255 = asciiBytes "unknown" ∧
      ((c = 5 ∨ c = 6 ∨ 19 ≤ c) → llm.FileType = asciiBytes "unknown") ∧
      (c = 2 → llm.FileType = asciiBytes "Q4_0") ∧
      (∀ llm2 : ggufModel,
        (∀ v, llm2.kv.get (asciiBytes "general.file_type") ≠ some (.scalar (.uint32 v))) →
        llm2.FileType = asciiBytes "unknown") := by
  have hft : llm.FileType = fileType c := by
    unfold ggufModel.FileType
    rw [assertUint32_of_get _ _ _ h]
    rfl
  refine ⟨hft, by decide, by decide, by decide, fileType_unknown,
    fileType_unknown 255 (by omega), ?_, ?_, ?_⟩
  · intro hc
    rw [hft, fileType_unknown c hc]
  · intro hc
    rw [hft, hc]
    decide
  · intro llm2 hno
    unfold ggufModel.FileType kv.assertUint32
    cases hg : llm2.kv.get (asciiBytes "general.file_type") with
    | none => rfl
    | some v =>
      cases v with
      | array xs => rfl
      | scalar x =>
        cases x with
        | uint32 t => exact absurd hg (hno t)
        | _ => rfl

theorem FileType_table_witness :
    (sampleFileType 2).kv.get (asciiBytes "general.file_type") = some (.scalar (.uint32 2)) ∧
    (sampleFileType 2).FileType = asciiBytes "Q4_0" :=
  ⟨by decide, (FileType_table (sampleFileType 2) 2 (by decide)).2.2.2.2.2.2.2.1 rfl⟩

end Llm
